import Mathlib

/-!
Verification development for the StellaVM bytecode virtual machine
(`src/Example/StellaVM/vm/src/vm_impl.cpp`).

The C++ implementation is shallowly embedded: machine integers become
`Nat`/`Int` with explicit wrapping where overflow matters, fallible
operations return `Except Error`, and the mutable interpreter state is
threaded explicitly through a step function.  Bytes are modelled as `Nat`
values below 256.  The `double` payload of an `f64` Value is modelled as its
raw 64-bit pattern (a `Nat` below `2 ^ 64`), which is exactly what the codec
reads and writes.
-/

namespace StellaVM

set_option maxRecDepth 10000

/-- Error taxonomy of the VM (the `ErrorCode` enum of the interface). -/
inductive ErrorCode where
  | type_mismatch
  | invalid_buffer_access
  | invalid_constant_index
  | invalid_input_index
  | stack_underflow
  | invalid_native_index
  | empty_native_binding
  | insufficient_native_arguments
  | unknown_opcode
  | division_by_zero
  | invalid_jump_target
  | verification_failed
  | invalid_function_index
  | invalid_local_index
  | missing_call_frame
  | step_budget_exceeded
  | invalid_function_signature
  | invalid_shift_amount
  | invalid_bytecode_magic
  | unsupported_bytecode_version
  | malformed_bytecode
  | arithmetic_overflow
  | native_reentrancy
  | bytecode_limit_exceeded
  deriving DecidableEq, Repr

/-- Error value carried by every fallible operation: a kind plus a message. -/
structure Error where
  code : ErrorCode
  message : String
  deriving DecidableEq, Repr

/-- Result type mirroring `stella::vm::Result<T>` (`std::expected`). -/
abbrev Result (α : Type) := Except Error α

/-- Mirrors the C++ helper `make_unexpected`. -/
def make_unexpected (code : ErrorCode) (message : String) : Except Error α :=
  .error ⟨code, message⟩

/-- Owned byte region.  `std::make_unique<std::byte[]>(n)` value-initializes,
so fresh buffers are zero-filled; the `size` member always equals the length
of the backing data, which the embedding captures by storing the bytes only. -/
structure MoveBuffer where
  data : List Nat
  deriving DecidableEq, Repr

/-- Byte count of the buffer (the `size` member). -/
def MoveBuffer.size (b : MoveBuffer) : Nat := b.data.length

/-- Mirrors `MoveBuffer::MoveBuffer(std::size_t byte_count)`: zero-filled
storage of the requested length. -/
def MoveBuffer.ofSize (byte_count : Nat) : MoveBuffer :=
  ⟨List.replicate byte_count 0⟩

/-- Tagged dynamic value.  String payloads are byte sequences
(`std::string_view` / `std::string` content); the `f64` payload is the raw
64-bit pattern of the `double`. -/
inductive Value where
  | empty
  | i64 (v : Int)
  | f64 (bits : Nat)
  | borrowed_string (s : List Nat)
  | owned_string (s : List Nat)
  | buffer (b : MoveBuffer)
  deriving DecidableEq, Repr

/-- Kind tags reported by `Value::kind()`. -/
inductive ValueKind where
  | empty
  | i64
  | f64
  | borrowed_string
  | owned_string
  | buffer
  deriving DecidableEq, Repr

/-- Mirrors `Value::kind()`. -/
def Value.kind : Value → ValueKind
  | .empty => .empty
  | .i64 _ => .i64
  | .f64 _ => .f64
  | .borrowed_string _ => .borrowed_string
  | .owned_string _ => .owned_string
  | .buffer _ => .buffer

/-- Mirrors `Value::kind_name`. -/
def Value.kind_name : ValueKind → String
  | .empty => "empty"
  | .i64 => "i64"
  | .f64 => "f64"
  | .borrowed_string => "borrowed_string"
  | .owned_string => "owned_string"
  | .buffer => "buffer"

/-- Mirrors `Value::is_empty()`. -/
def Value.is_empty : Value → Bool
  | .empty => true
  | _ => false

/-- Mirrors `Value::is_i64()`. -/
def Value.is_i64 : Value → Bool
  | .i64 _ => true
  | _ => false

/-- Mirrors `Value::is_f64()`. -/
def Value.is_f64 : Value → Bool
  | .f64 _ => true
  | _ => false

/-- Mirrors `Value::is_string_view()`. -/
def Value.is_string_view : Value → Bool
  | .borrowed_string _ => true
  | _ => false

/-- Mirrors `Value::is_owned_string()`. -/
def Value.is_owned_string : Value → Bool
  | .owned_string _ => true
  | _ => false

/-- Mirrors `Value::is_string()`: true for either string variant. -/
def Value.is_string (v : Value) : Bool :=
  v.is_string_view || v.is_owned_string

/-- Mirrors `Value::is_buffer()`. -/
def Value.is_buffer : Value → Bool
  | .buffer _ => true
  | _ => false

/-- Mirrors `Value::expect_i64(context)`: the i64 payload, or a
`type_mismatch` error whose message embeds the context and observed kind. -/
def Value.expect_i64 (v : Value) (context : String) : Result Int :=
  match v with
  | .i64 n => .ok n
  | _ =>
      make_unexpected .type_mismatch
        (context ++ " expected i64 but got " ++ Value.kind_name v.kind ++ ".")

/-- Mirrors `Value::expect_string(context)`: the byte content of either
string variant, or a `type_mismatch` error. -/
def Value.expect_string (v : Value) (context : String) : Result (List Nat) :=
  match v with
  | .borrowed_string s => .ok s
  | .owned_string s => .ok s
  | _ =>
      make_unexpected .type_mismatch
        (context ++ " expected string but got " ++ Value.kind_name v.kind ++ ".")

/-- Mirrors the buffer arm of `Value::Value(const Value&)`: construct a fresh
zero-filled buffer of the same size, then (for non-zero sizes) copy the bytes
over. -/
def MoveBuffer.deep_copy (b : MoveBuffer) : MoveBuffer :=
  let copied := MoveBuffer.ofSize b.size
  if b.size ≠ 0 then ⟨b.data⟩ else copied

/-- Mirrors `Value::Value(const Value&)`: every variant is copied; the
MoveBuffer variant gets a deep byte copy into freshly constructed storage. -/
def Value.copy : Value → Value
  | .empty => .empty
  | .i64 n => .i64 n
  | .f64 bits => .f64 bits
  | .borrowed_string s => .borrowed_string s
  | .owned_string s => .owned_string s
  | .buffer b => .buffer b.deep_copy

/-! ## Arena

The arena tracks one record per registered destructor.  Running a destructor
is an external effect; the embedding logs the `object` identifier of each
destructor that runs (in execution order) in the `destroyed` list.  The
`destroy` function pointer is always non-null for registered entries, so it
is represented by the effect itself. -/

/-- One entry of `tracked_allocations_`. -/
structure TrackedAllocation where
  object : Nat
  alive : Bool
  deriving DecidableEq, Repr

/-- Arena state: the destructor-tracking list plus the log of destructors
that have been executed, in execution order. -/
structure Arena where
  tracked : List TrackedAllocation
  destroyed : List Nat
  deriving DecidableEq, Repr

/-- Scoped guard returned by `Arena::mark()`.  `armed = false` models a
released (or moved-from) marker whose `arena_` pointer is null. -/
structure ArenaMarker where
  rewind_to : Nat
  armed : Bool
  deriving DecidableEq, Repr

/-- Mirrors `Arena::mark()`: captures the current tracking-list length. -/
def Arena.mark (a : Arena) : ArenaMarker :=
  ⟨a.tracked.length, true⟩

/-- Mirrors `Arena::Marker::release()`. -/
def ArenaMarker.release (m : ArenaMarker) : ArenaMarker :=
  { m with armed := false }

/-- Mirrors `Arena::register_destructor`: appends a live tracking entry. -/
def Arena.register_destructor (a : Arena) (object : Nat) : Arena :=
  { a with tracked := a.tracked ++ [⟨object, true⟩] }

/-- Destructor execution order of `Arena::rewind`'s downward loop over a
segment of entries: last registered first, skipping entries no longer alive. -/
def destructionOrder (entries : List TrackedAllocation) : List Nat :=
  (entries.reverse.filter (fun t => t.alive)).map (fun t => t.object)

/-- Mirrors `Arena::rewind(index)`: clamps the index, runs the destructor of
every live entry past it from the end downwards, and truncates the list. -/
def Arena.rewind (a : Arena) (index : Nat) : Arena :=
  let idx := min index a.tracked.length
  { tracked := a.tracked.take idx
    destroyed := a.destroyed ++ destructionOrder (a.tracked.drop idx) }

/-- Mirrors `Arena::Marker::~Marker()`: rewinds unless released. -/
def Arena.destroyMarker (a : Arena) (m : ArenaMarker) : Arena :=
  if m.armed then a.rewind m.rewind_to else a

/-- Registers a batch of destructors in order (repeated `emplace`). -/
def Arena.registerAll (a : Arena) (objects : List Nat) : Arena :=
  objects.foldl Arena.register_destructor a

/-- Mirrors `Arena::live_allocations()`. -/
def Arena.live_allocations (a : Arena) : Nat :=
  (a.tracked.filter (fun t => t.alive)).length

/-! ## Program representation -/

/-- One bytecode instruction.  The C++ `Instruction` stores an `OpCode` enum
value; since `static_cast` admits arbitrary byte values (handled by the
`default` branches of the dispatch switches), the opcode is modelled as its
raw numeric value. -/
structure Instruction where
  opcode : Nat
  operand : Nat
  deriving DecidableEq, Repr

/-- Function table entry `Program::Function`. -/
structure ProgFunction where
  entry : Nat
  arity : Nat
  local_count : Nat
  deriving DecidableEq, Repr

/-- A program: instruction list, constant pool, function table. -/
structure Program where
  code : List Instruction
  constants : List Value
  functions : List ProgFunction
  deriving DecidableEq, Repr

/-- The opcodes of the VM. -/
inductive OpCode where
  | push_constant
  | push_input
  | add_i64
  | sub_i64
  | mul_i64
  | mod_i64
  | cmp_eq_i64
  | cmp_lt_i64
  | and_i64
  | or_i64
  | xor_i64
  | shl_i64
  | shr_i64
  | jump
  | jump_if_true
  | dup
  | pop
  | call
  | ret
  | load_local
  | store_local
  | call_native
  | halt
  deriving DecidableEq, Repr

/-- Modelled from the spec: the numeric values of the `OpCode` enumeration
live in the module interface file, which is not under `src/`; the spec (§6)
requires a stable numbering and lists the opcodes in order, so they are
numbered 0..22 in that listing order.  Values outside the enumeration decode
to `none` and reach the `default` branches (`unknown_opcode`). -/
def decodeOp (opcode : Nat) : Option OpCode :=
  match opcode with
  | 0 => some .push_constant
  | 1 => some .push_input
  | 2 => some .add_i64
  | 3 => some .sub_i64
  | 4 => some .mul_i64
  | 5 => some .mod_i64
  | 6 => some .cmp_eq_i64
  | 7 => some .cmp_lt_i64
  | 8 => some .and_i64
  | 9 => some .or_i64
  | 10 => some .xor_i64
  | 11 => some .shl_i64
  | 12 => some .shr_i64
  | 13 => some .jump
  | 14 => some .jump_if_true
  | 15 => some .dup
  | 16 => some .pop
  | 17 => some .call
  | 18 => some .ret
  | 19 => some .load_local
  | 20 => some .store_local
  | 21 => some .call_native
  | 22 => some .halt
  | _ => none

/-- Numeric opcode values (see `decodeOp`), for building concrete programs. -/
def opPushConstant : Nat := 0

def opPushInput : Nat := 1

def opAddI64 : Nat := 2

def opSubI64 : Nat := 3

def opMulI64 : Nat := 4

def opModI64 : Nat := 5

def opCmpEqI64 : Nat := 6

def opCmpLtI64 : Nat := 7

def opAndI64 : Nat := 8

def opOrI64 : Nat := 9

def opXorI64 : Nat := 10

def opShlI64 : Nat := 11

def opShrI64 : Nat := 12

def opJump : Nat := 13

def opJumpIfTrue : Nat := 14

def opDup : Nat := 15

def opPop : Nat := 16

def opCall : Nat := 17

def opRet : Nat := 18

def opLoadLocal : Nat := 19

def opStoreLocal : Nat := 20

def opCallNative : Nat := 21

def opHalt : Nat := 22

/-! ## Two's-complement i64 arithmetic

The C++ arithmetic operates on `std::int64_t`; add/sub/mul/shl wrap modulo
`2 ^ 64` (two's complement), `%` truncates toward zero, `>>` on a signed
value is an arithmetic shift, and the bitwise operations act on the
two's-complement representation. -/

/-- Wraps an integer into the `int64_t` range `[-2 ^ 63, 2 ^ 63)`. -/
def wrap64 (x : Int) : Int := (x + 2 ^ 63) % 2 ^ 64 - 2 ^ 63

/-- Two's-complement 64-bit representation of an integer. -/
def toU64 (x : Int) : Nat := (x % 2 ^ 64).toNat

/-- Signed reading of a 64-bit pattern. -/
def ofU64 (u : Nat) : Int := if u < 2 ^ 63 then (u : Int) else (u : Int) - 2 ^ 64

/-- Bitwise AND of two `int64_t` values. -/
def and64 (a b : Int) : Int := ofU64 (Nat.land (toU64 a) (toU64 b))

/-- Bitwise OR of two `int64_t` values. -/
def or64 (a b : Int) : Int := ofU64 (Nat.lor (toU64 a) (toU64 b))

/-- Bitwise XOR of two `int64_t` values. -/
def xor64 (a b : Int) : Int := ofU64 (Nat.xor (toU64 a) (toU64 b))

/-- Left shift `a << s` for `s` in `[0, 63]` (wraps like the hardware). -/
def shl64 (a : Int) (s : Nat) : Int := wrap64 (a * 2 ^ s)

/-- Arithmetic right shift `a >> s` (floor division by `2 ^ s`). -/
def shr64 (a : Int) (s : Nat) : Int := Int.fdiv a (2 ^ s)

/-! ## Interpreter helpers -/

/-- Mirrors `VM::pop_value()` on an explicit stack (head of the list is the
top of the stack, i.e. the back of the C++ vector). -/
def pop_value : List Value → Result (Value × List Value)
  | [] => make_unexpected .stack_underflow "VM stack underflow."
  | v :: rest => .ok (v, rest)

/-- Common shape of the eleven `VM::execute_*_i64` helpers: pop rhs, pop
lhs, require both i64 (contextual error messages name the operation),
compute, and return the result together with the remaining stack. -/
def binary_i64_op (opname : String) (compute : Int → Int → Result Int)
    (stack : List Value) : Result (Value × List Value) :=
  match pop_value stack with
  | .error e => .error e
  | .ok (rhs, s1) =>
      match pop_value s1 with
      | .error e => .error e
      | .ok (lhs, s2) =>
          match lhs.expect_i64 (opname ++ " lhs") with
          | .error e => .error e
          | .ok l =>
              match rhs.expect_i64 (opname ++ " rhs") with
              | .error e => .error e
              | .ok r =>
                  match compute l r with
                  | .error e => .error e
                  | .ok res => .ok (Value.i64 res, s2)

/-- Mirrors `VM::execute_add_i64`. -/
def execute_add_i64 : List Value → Result (Value × List Value) :=
  binary_i64_op "add_i64" (fun a b => .ok (wrap64 (a + b)))

/-- Mirrors `VM::execute_sub_i64`. -/
def execute_sub_i64 : List Value → Result (Value × List Value) :=
  binary_i64_op "sub_i64" (fun a b => .ok (wrap64 (a - b)))

/-- Mirrors `VM::execute_mul_i64`. -/
def execute_mul_i64 : List Value → Result (Value × List Value) :=
  binary_i64_op "mul_i64" (fun a b => .ok (wrap64 (a * b)))

/-- Mirrors `VM::execute_mod_i64`: rejects divisor 0 with
`division_by_zero`; `%` truncates toward zero. -/
def execute_mod_i64 : List Value → Result (Value × List Value) :=
  binary_i64_op "mod_i64" (fun a b =>
    if b = 0 then
      make_unexpected .division_by_zero "mod_i64 divisor cannot be zero."
    else .ok (Int.tmod a b))

/-- Mirrors `VM::execute_cmp_eq_i64`. -/
def execute_cmp_eq_i64 : List Value → Result (Value × List Value) :=
  binary_i64_op "cmp_eq_i64" (fun a b => .ok (if a = b then 1 else 0))

/-- Mirrors `VM::execute_cmp_lt_i64`. -/
def execute_cmp_lt_i64 : List Value → Result (Value × List Value) :=
  binary_i64_op "cmp_lt_i64" (fun a b => .ok (if a < b then 1 else 0))

/-- Mirrors `VM::execute_and_i64`. -/
def execute_and_i64 : List Value → Result (Value × List Value) :=
  binary_i64_op "and_i64" (fun a b => .ok (and64 a b))

/-- Mirrors `VM::execute_or_i64`. -/
def execute_or_i64 : List Value → Result (Value × List Value) :=
  binary_i64_op "or_i64" (fun a b => .ok (or64 a b))

/-- Mirrors `VM::execute_xor_i64`. -/
def execute_xor_i64 : List Value → Result (Value × List Value) :=
  binary_i64_op "xor_i64" (fun a b => .ok (xor64 a b))

/-- Mirrors `VM::execute_shl_i64`: shift amounts outside `[0, 63]` fail with
`invalid_shift_amount`. -/
def execute_shl_i64 : List Value → Result (Value × List Value) :=
  binary_i64_op "shl_i64" (fun a b =>
    if b < 0 ∨ 63 < b then
      make_unexpected .invalid_shift_amount
        "shl_i64 shift amount must be in [0, 63]."
    else .ok (shl64 a b.toNat))

/-- Mirrors `VM::execute_shr_i64`: shift amounts outside `[0, 63]` fail with
`invalid_shift_amount`. -/
def execute_shr_i64 : List Value → Result (Value × List Value) :=
  binary_i64_op "shr_i64" (fun a b =>
    if b < 0 ∨ 63 < b then
      make_unexpected .invalid_shift_amount
        "shr_i64 shift amount must be in [0, 63]."
    else .ok (shr64 a b.toNat))

/-- Mirrors the per-opcode `switch` inside the peephole fusion block of
`push_constant` in `VM::run_unchecked`: `ok none` means the next opcode is
not fusable, `ok (some r)` is the fused result, and the mod/shift guards
fail exactly as in the unfused helpers. -/
def fused_i64_result (next_opcode : Nat) (lhs rhs : Int) : Result (Option Int) :=
  match decodeOp next_opcode with
  | some .add_i64 => .ok (some (wrap64 (lhs + rhs)))
  | some .sub_i64 => .ok (some (wrap64 (lhs - rhs)))
  | some .mul_i64 => .ok (some (wrap64 (lhs * rhs)))
  | some .mod_i64 =>
      if rhs = 0 then
        make_unexpected .division_by_zero "mod_i64 divisor cannot be zero."
      else .ok (some (Int.tmod lhs rhs))
  | some .cmp_eq_i64 => .ok (some (if lhs = rhs then 1 else 0))
  | some .cmp_lt_i64 => .ok (some (if lhs < rhs then 1 else 0))
  | some .and_i64 => .ok (some (and64 lhs rhs))
  | some .or_i64 => .ok (some (or64 lhs rhs))
  | some .xor_i64 => .ok (some (xor64 lhs rhs))
  | some .shl_i64 =>
      if rhs < 0 ∨ 63 < rhs then
        make_unexpected .invalid_shift_amount
          "shl_i64 shift amount must be in [0, 63]."
      else .ok (some (shl64 lhs rhs.toNat))
  | some .shr_i64 =>
      if rhs < 0 ∨ 63 < rhs then
        make_unexpected .invalid_shift_amount
          "shr_i64 shift amount must be in [0, 63]."
      else .ok (some (shr64 lhs rhs.toNat))
  | _ => .ok none

/-- Native binding.  The C++ adapter receives a mutable reference to the VM
and a mutable span over the argument slots; per the spec's determinism
contract it is modelled as a pure function of the argument values (`none`
models an empty `std::move_only_function`). -/
structure NativeBinding where
  name : String
  arity : Nat
  fn : Option (List Value → Result Value)

/-- Mirrors `VM::execute_call_native`.  The C++ argument span covers the top
`arity` slots in bottom-to-top order, so the argument list is the reverse of
the top-of-stack prefix. -/
def execute_call_native (natives : List NativeBinding) (stack : List Value)
    (binding_index : Nat) : Result (Value × List Value) :=
  match natives.get? binding_index with
  | none => make_unexpected .invalid_native_index "call_native operand out of range."
  | some binding =>
      match binding.fn with
      | none => make_unexpected .empty_native_binding "Native function binding is empty."
      | some f =>
          if stack.length < binding.arity then
            make_unexpected .insufficient_native_arguments
              "call_native does not have enough stack arguments."
          else
            match f ((stack.take binding.arity).reverse) with
            | .error e => .error e
            | .ok v => .ok (v, stack.drop binding.arity)

/-! ## Interpreter state and step function -/

/-- Mirrors `CallFrame`. -/
structure CallFrame where
  return_pc : Nat
  base : Nat
  local_count : Nat
  deriving DecidableEq, Repr

/-- Mirrors `TraceEvent`. -/
structure TraceEvent where
  pc : Nat
  opcode : Nat
  stack_size : Nat
  call_depth : Nat
  deriving DecidableEq, Repr

/-- Profile counters.  The wall-clock nanosecond accumulators are real-time
measurements and are outside the embedding; the counts are modelled. -/
structure ProfileStats where
  opcode_counts : List Nat
  executed_steps : Nat
  runs : Nat
  deriving DecidableEq, Repr

/-- Zeroed profile counters (256 per-opcode slots). -/
def ProfileStats.init : ProfileStats := ⟨List.replicate 256 0, 0, 0⟩

/-- The `InstructionProfileGuard` constructor effects: bump the executed-step
counter and the per-opcode count. -/
def ProfileStats.record (p : ProfileStats) (opcode : Nat) : ProfileStats :=
  { p with
    executed_steps := p.executed_steps + 1
    opcode_counts := p.opcode_counts.set opcode (p.opcode_counts.getD opcode 0 + 1) }

/-- Run-invariant configuration of a `run`: the borrowed program, the native
registry, the step budget (0 disables it), and the observability toggles. -/
structure VMConfig where
  program : Program
  natives : List NativeBinding
  step_budget : Nat
  profiling_enabled : Bool
  trace_installed : Bool

/-- Mutable interpreter state.  The head of `stack` is the top of the stack
(the back of the C++ vector); the head of `frames` is the innermost frame.
`trace_log` records the events delivered to the trace sink. -/
@[ext]
structure VMState where
  pc : Nat
  stack : List Value
  frames : List CallFrame
  inputs : List Value
  executed_steps : Nat
  profile : ProfileStats
  trace_log : List TraceEvent
  deriving DecidableEq, Repr

/-- Outcome of one iteration of the fetch/execute loop. -/
inductive StepOutcome where
  | done (v : Value)
  | failed (e : Error)
  | next (s : VMState)
  deriving DecidableEq, Repr

/-- Profiling and tracing effects at the top of one loop iteration. -/
def recordInstr (cfg : VMConfig) (s : VMState) (instruction : Instruction) :
    VMState :=
  let s1 :=
    if cfg.profiling_enabled then
      { s with profile := s.profile.record instruction.opcode }
    else s
  if cfg.trace_installed then
    { s1 with trace_log := s1.trace_log ++
        [⟨s.pc, instruction.opcode, s.stack.length, s.frames.length⟩] }
  else s1

/-- Packages a binary-helper result back into the loop (`stack_.push_back`
of the produced value). -/
def binaryOutcome (s : VMState) (r : Result (Value × List Value)) : StepOutcome :=
  match r with
  | .error e => .failed e
  | .ok (v, rest) => .next { s with stack := v :: rest, pc := s.pc + 1 }

/-- Dispatch of one instruction (the big `switch` of `VM::run_unchecked`),
acting on a state whose bookkeeping effects have already been applied. -/
def execInstr (cfg : VMConfig) (s : VMState) (instruction : Instruction) :
    StepOutcome :=
  match decodeOp instruction.opcode with
  | some .push_constant =>
      match cfg.program.constants.get? instruction.operand with
      | none => .failed ⟨.invalid_constant_index, "push_constant operand out of range."⟩
      | some constant =>
          match constant, cfg.program.code.get? (s.pc + 1), s.stack with
          | .i64 rhs, some next_instruction, top :: rest =>
              match top.expect_i64 "fused_i64 lhs" with
              | .error e => .failed e
              | .ok lhs =>
                  match fused_i64_result next_instruction.opcode lhs rhs with
                  | .error e => .failed e
                  | .ok (some result) =>
                      .next { s with stack := Value.i64 result :: rest, pc := s.pc + 2 }
                  | .ok none =>
                      .next { s with stack := constant :: s.stack, pc := s.pc + 1 }
          | _, _, _ => .next { s with stack := constant :: s.stack, pc := s.pc + 1 }
  | some .push_input =>
      match s.inputs.get? instruction.operand with
      | none => .failed ⟨.invalid_input_index, "push_input operand out of range."⟩
      | some v =>
          .next { s with stack := v :: s.stack,
                         inputs := s.inputs.set instruction.operand .empty,
                         pc := s.pc + 1 }
  | some .add_i64 => binaryOutcome s (execute_add_i64 s.stack)
  | some .sub_i64 => binaryOutcome s (execute_sub_i64 s.stack)
  | some .mul_i64 => binaryOutcome s (execute_mul_i64 s.stack)
  | some .mod_i64 => binaryOutcome s (execute_mod_i64 s.stack)
  | some .cmp_eq_i64 => binaryOutcome s (execute_cmp_eq_i64 s.stack)
  | some .cmp_lt_i64 => binaryOutcome s (execute_cmp_lt_i64 s.stack)
  | some .and_i64 => binaryOutcome s (execute_and_i64 s.stack)
  | some .or_i64 => binaryOutcome s (execute_or_i64 s.stack)
  | some .xor_i64 => binaryOutcome s (execute_xor_i64 s.stack)
  | some .shl_i64 => binaryOutcome s (execute_shl_i64 s.stack)
  | some .shr_i64 => binaryOutcome s (execute_shr_i64 s.stack)
  | some .jump =>
      if cfg.program.code.length ≤ instruction.operand then
        .failed ⟨.invalid_jump_target, "jump target out of range."⟩
      else .next { s with pc := instruction.operand }
  | some .jump_if_true =>
      if cfg.program.code.length ≤ instruction.operand then
        .failed ⟨.invalid_jump_target, "jump_if_true target out of range."⟩
      else
        match pop_value s.stack with
        | .error e => .failed e
        | .ok (condition, rest) =>
            match condition.expect_i64 "jump_if_true" with
            | .error e => .failed e
            | .ok c =>
                if c ≠ 0 then .next { s with stack := rest, pc := instruction.operand }
                else .next { s with stack := rest, pc := s.pc + 1 }
  | some .dup =>
      match s.stack with
      | [] => .failed ⟨.stack_underflow, "dup requires non-empty stack."⟩
      | v :: _ => .next { s with stack := v :: s.stack, pc := s.pc + 1 }
  | some .pop =>
      match s.stack with
      | [] => .failed ⟨.stack_underflow, "pop requires non-empty stack."⟩
      | _ :: rest => .next { s with stack := rest, pc := s.pc + 1 }
  | some .call =>
      match cfg.program.functions.get? instruction.operand with
      | none => .failed ⟨.invalid_function_index, "call operand out of range."⟩
      | some fn =>
          if fn.local_count < fn.arity then
            .failed ⟨.invalid_function_signature, "Function local_count must be >= arity."⟩
          else if cfg.program.code.length ≤ fn.entry then
            .failed ⟨.invalid_function_index, "Function entry points outside bytecode."⟩
          else if s.stack.length < fn.arity then
            .failed ⟨.stack_underflow, "call does not have enough stack arguments."⟩
          else
            .next { s with
              stack := List.replicate (fn.local_count - fn.arity) Value.empty ++ s.stack,
              frames := ⟨s.pc + 1, s.stack.length - fn.arity, fn.local_count⟩ :: s.frames,
              pc := fn.entry }
  | some .ret =>
      match pop_value s.stack with
      | .error e => .failed e
      | .ok (return_value, rest) =>
          match s.frames with
          | [] => .done return_value
          | frame :: frames_rest =>
              if rest.length < frame.base then
                .failed ⟨.missing_call_frame, "Corrupted call frame base exceeds stack size."⟩
              else
                .next { s with
                  stack := return_value :: rest.drop (rest.length - frame.base),
                  frames := frames_rest,
                  pc := frame.return_pc }
  | some .load_local =>
      match s.frames with
      | [] => .failed ⟨.missing_call_frame, "load_local requires an active call frame."⟩
      | frame :: _ =>
          if frame.local_count ≤ instruction.operand then
            .failed ⟨.invalid_local_index, "load_local operand out of range."⟩
          else if s.stack.length ≤ frame.base + instruction.operand then
            .failed ⟨.invalid_local_index, "load_local resolved stack index out of range."⟩
          else
            .next { s with
              stack := s.stack.getD
                (s.stack.length - 1 - (frame.base + instruction.operand))
                Value.empty :: s.stack,
              pc := s.pc + 1 }
  | some .store_local =>
      match s.frames with
      | [] => .failed ⟨.missing_call_frame, "store_local requires an active call frame."⟩
      | frame :: _ =>
          if frame.local_count ≤ instruction.operand then
            .failed ⟨.invalid_local_index, "store_local operand out of range."⟩
          else
            match pop_value s.stack with
            | .error e => .failed e
            | .ok (value, rest) =>
                if rest.length ≤ frame.base + instruction.operand then
                  .failed ⟨.invalid_local_index, "store_local resolved stack index out of range."⟩
                else
                  .next { s with
                    stack := rest.set
                      (rest.length - 1 - (frame.base + instruction.operand)) value,
                    pc := s.pc + 1 }
  | some .call_native => binaryOutcome s (execute_call_native cfg.natives s.stack instruction.operand)
  | some .halt =>
      match s.stack with
      | [] => .done .empty
      | v :: _ => .done v
  | none => .failed ⟨.unknown_opcode, "Unknown opcode."⟩

/-- State after the bookkeeping at the top of a loop iteration: profiling
and tracing effects plus the `++executed_steps` increment. -/
def bookkeep (cfg : VMConfig) (s : VMState) (instruction : Instruction) :
    VMState :=
  { recordInstr cfg s instruction with
    executed_steps := s.executed_steps + 1 }

/-- Result at a `halt` instruction or at the implicit program end: the top
of stack, or an empty Value when the stack is empty. -/
def haltResult : List Value → Value
  | [] => .empty
  | v :: _ => v

/-- One iteration of the fetch/execute loop of `VM::run_unchecked`: loop
exit at `pc = code.size` (implicit program end, same result as `halt`),
step-budget check, bookkeeping, then dispatch. -/
def stepVM (cfg : VMConfig) (s : VMState) : StepOutcome :=
  match cfg.program.code.get? s.pc with
  | none =>
      match s.stack with
      | [] => .done .empty
      | v :: _ => .done v
  | some instruction =>
      if cfg.step_budget ≠ 0 ∧ cfg.step_budget ≤ s.executed_steps then
        .failed ⟨.step_budget_exceeded, "VM step budget exhausted before termination."⟩
      else
        execInstr cfg (bookkeep cfg s instruction) instruction

/-- Runs up to `n` iterations of the loop; `next s` means the machine is
still running in state `s` after `n` iterations. -/
def advance (cfg : VMConfig) : Nat → VMState → StepOutcome
  | 0, s => .next s
  | n + 1, s =>
      match stepVM cfg s with
      | .next s2 => advance cfg n s2
      | outcome => outcome

/-- State at the top of `run_unchecked`: cleared stack and call frames, the
host-pushed inputs, fresh step counter. -/
def initState (inputs : List Value) : VMState :=
  ⟨0, [], [], inputs, 0, ProfileStats.init, []⟩

/-- Mirrors `VM::run_unchecked`, fuel-indexed: `none` means execution has
not terminated within `fuel` loop iterations. -/
def run_unchecked (cfg : VMConfig) (inputs : List Value) (fuel : Nat) :
    Option (Result Value) :=
  match advance cfg fuel (initState inputs) with
  | .done v => some (.ok v)
  | .failed e => some (.error e)
  | .next _ => none

/-! ## Verifier

`VM::verify` runs a worklist-driven abstract interpretation assigning an
expected stack depth to every reachable PC.  The mutable verifier state
(`stack_depth_at_pc`, `stack_depth_at_end`, `worklist`) is threaded
explicitly; the per-instruction `(pops, pushes, explicit target,
fallthrough)` table is `instructionEffect`. -/

/-- Static effect of one instruction, as computed by the verifier switch. -/
structure InstrEffect where
  pops : Nat
  pushes : Nat
  target : Option Nat
  fallthrough : Bool
  deriving DecidableEq, Repr

/-- The verifier's per-opcode switch: operand validity checks plus the
`(pops, pushes, explicit-jump-target, has-fallthrough)` table.  `dup`
additionally requires a non-zero entry depth. -/
def instructionEffect (natives : List NativeBinding) (P : Program)
    (available_inputs : Nat) (instruction : Instruction) (stack_depth : Nat) :
    Result InstrEffect :=
  match decodeOp instruction.opcode with
  | some .push_constant =>
      if P.constants.length ≤ instruction.operand then
        make_unexpected .invalid_constant_index
          "push_constant operand out of range during verification."
      else .ok ⟨0, 1, none, true⟩
  | some .push_input =>
      if available_inputs ≤ instruction.operand then
        make_unexpected .invalid_input_index
          "push_input operand out of range during verification."
      else .ok ⟨0, 1, none, true⟩
  | some .add_i64 | some .sub_i64 | some .mul_i64 | some .mod_i64
  | some .cmp_eq_i64 | some .cmp_lt_i64 | some .and_i64 | some .or_i64
  | some .xor_i64 | some .shl_i64 | some .shr_i64 => .ok ⟨2, 1, none, true⟩
  | some .call_native =>
      match natives.get? instruction.operand with
      | none =>
          make_unexpected .invalid_native_index
            "call_native operand out of range during verification."
      | some binding =>
          match binding.fn with
          | none =>
              make_unexpected .empty_native_binding
                "call_native resolved to empty native binding during verification."
          | some _ => .ok ⟨binding.arity, 1, none, true⟩
  | some .jump => .ok ⟨0, 0, some instruction.operand, false⟩
  | some .jump_if_true => .ok ⟨1, 0, some instruction.operand, true⟩
  | some .dup =>
      if stack_depth = 0 then
        make_unexpected .stack_underflow "dup requires at least one value on stack."
      else .ok ⟨0, 1, none, true⟩
  | some .pop => .ok ⟨1, 0, none, true⟩
  | some .call =>
      match P.functions.get? instruction.operand with
      | none =>
          make_unexpected .invalid_function_index
            "call operand out of range during verification."
      | some fn => .ok ⟨fn.arity, 1, none, true⟩
  | some .ret => .ok ⟨1, 0, none, false⟩
  | some .load_local => .ok ⟨0, 1, none, true⟩
  | some .store_local => .ok ⟨1, 0, none, true⟩
  | some .halt => .ok ⟨0, 0, none, false⟩
  | none => make_unexpected .unknown_opcode "Unknown opcode during verification."

/-- Verifier state: depth per PC (`none` = not yet known), depth at the
implicit program end, and the worklist of PCs to visit. -/
structure VerifySt where
  depths : List (Option Nat)
  end_depth : Option Nat
  worklist : List Nat
  deriving DecidableEq, Repr

/-- Mirrors the `enqueue_successor` lambda of `VM::verify`: a successor at
`code_len` is the implicit program end (reaching edges must agree on depth),
a successor past it is `invalid_jump_target`, and otherwise the depth is
recorded on first visit (enqueueing the PC) or compared on revisit. -/
def enqueue_successor (code_len : Nat) (st : VerifySt) (pc depth : Nat) :
    Result VerifySt :=
  if pc = code_len then
    match st.end_depth with
    | none => .ok { st with end_depth := some depth }
    | some known =>
        if known ≠ depth then
          make_unexpected .verification_failed
            "Inconsistent stack depth at implicit program end."
        else .ok st
  else if code_len < pc then
    make_unexpected .invalid_jump_target "Jump target points past end of bytecode."
  else
    match st.depths.getD pc none with
    | none =>
        .ok { st with depths := st.depths.set pc (some depth),
                      worklist := pc :: st.worklist }
    | some known =>
        if known ≠ depth then
          make_unexpected .verification_failed
            "Inconsistent stack depth across control-flow merge."
        else .ok st

/-- One iteration of the verifier worklist loop, processing `pc` (already
removed from the worklist of `st`): look up the entry depth, compute the
instruction effect, check for underflow, then enqueue the explicit target
(after its own `>= code size` check) and/or the fallthrough successor. -/
def verifyStep (natives : List NativeBinding) (P : Program)
    (available_inputs : Nat) (st : VerifySt) (pc : Nat) : Result VerifySt :=
  match P.code.get? pc with
  | none => make_unexpected .verification_failed "Worklist pc out of range."
  | some instruction =>
      let stack_depth := (st.depths.getD pc none).getD 0
      match instructionEffect natives P available_inputs instruction stack_depth with
      | .error e => .error e
      | .ok eff =>
          if stack_depth < eff.pops then
            make_unexpected .stack_underflow
              "Instruction would underflow stack during verification."
          else
            let next_depth := stack_depth - eff.pops + eff.pushes
            match eff.target with
            | some t =>
                if P.code.length ≤ t then
                  make_unexpected .invalid_jump_target
                    "Jump target out of range during verification."
                else
                  match enqueue_successor P.code.length st t next_depth with
                  | .error e => .error e
                  | .ok st2 =>
                      if eff.fallthrough then
                        enqueue_successor P.code.length st2 (pc + 1) next_depth
                      else .ok st2
            | none =>
                if eff.fallthrough then
                  enqueue_successor P.code.length st (pc + 1) next_depth
                else .ok st

/-- The verifier worklist loop.  Each PC is pushed to the worklist at most
once (on the `none` to `some` transition of its depth), so
`code.length + 1` fuel always suffices; running out of fuel is reported as
a verification failure and never happens on the given fuel. -/
def verifyLoop (natives : List NativeBinding) (P : Program)
    (available_inputs : Nat) : Nat → VerifySt → Result VerifySt
  | 0, _ => make_unexpected .verification_failed "Verifier worklist fuel exhausted."
  | fuel + 1, st =>
      match st.worklist with
      | [] => .ok st
      | pc :: rest =>
          match verifyStep natives P available_inputs { st with worklist := rest } pc with
          | .error e => .error e
          | .ok st2 => verifyLoop natives P available_inputs fuel st2

/-- The function-table prechecks of `VM::verify`: every entry in range and
`local_count >= arity`. -/
def checkFunctions (code_len : Nat) : List ProgFunction → Result Unit
  | [] => .ok ()
  | fn :: rest =>
      if code_len ≤ fn.entry then
        make_unexpected .invalid_function_index "Function entry points outside bytecode."
      else if fn.local_count < fn.arity then
        make_unexpected .invalid_function_signature "Function local_count must be >= arity."
      else checkFunctions code_len rest

/-- Mirrors `VM::verify`, additionally returning the verifier's internal
result: the depth assigned to each PC and the depth at the implicit end. -/
def verifyCompute (natives : List NativeBinding) (P : Program)
    (available_inputs : Nat) : Result (List (Option Nat) × Option Nat) :=
  if P.code.isEmpty then
    make_unexpected .verification_failed "Program has no instructions."
  else
    match checkFunctions P.code.length P.functions with
    | .error e => .error e
    | .ok _ =>
        match enqueue_successor P.code.length
            ⟨List.replicate P.code.length none, none, []⟩ 0 0 with
        | .error e => .error e
        | .ok st0 =>
            match verifyLoop natives P available_inputs (P.code.length + 1) st0 with
            | .error e => .error e
            | .ok st => .ok (st.depths, st.end_depth)

/-- Mirrors `VM::verify` (the `VoidResult` interface). -/
def verify (natives : List NativeBinding) (P : Program)
    (available_inputs : Nat) : Result Unit :=
  match verifyCompute natives P available_inputs with
  | .error e => .error e
  | .ok _ => .ok ()

/-- Mirrors `VM::run`: verify against the current number of inputs, then
delegate to `run_unchecked`. -/
def run (cfg : VMConfig) (inputs : List Value) (fuel : Nat) :
    Option (Result Value) :=
  match verify cfg.natives cfg.program inputs.length with
  | .error e => some (.error e)
  | .ok _ => run_unchecked cfg inputs fuel

/-- Depth recorded by the verifier for a PC, treating `code_len` as the
implicit program end. -/
def depthAt (depths : List (Option Nat)) (end_depth : Option Nat)
    (pc code_len : Nat) : Option Nat :=
  if pc < code_len then depths.getD pc none
  else if pc = code_len then end_depth
  else none

/-! ## Bytecode codec

`serialize_program` / `deserialize_program` write and read a little-endian
packed byte stream; the stream is modelled as a `List Nat` of byte values.
`ByteWriter.write_raw` of a `k`-byte integer appends its `k` little-endian
bytes (`leBytes`); `ByteReader.read_raw` consumes `k` bytes and reassembles
the value (`readLE`). -/

/-- Modelled from the spec: the `bytecode_magic` constant lives in the
module interface file, which is not under `src/`; the spec fixes it as an
implementation-chosen u32 held constant.  The codec behavior proved here
does not depend on the chosen value. -/
def bytecode_magic : Nat := 0x53544C41

/-- Modelled from the spec: the `bytecode_version` constant lives in the
module interface file, which is not under `src/`; an implementation-chosen
u16 held constant. -/
def bytecode_version : Nat := 1

/-- Little-endian byte encoding of the low `k` bytes of `n`
(`ByteWriter::write_raw`). -/
def leBytes : Nat → Nat → List Nat
  | 0, _ => []
  | k + 1, n => n % 256 :: leBytes k (n / 256)

/-- Reads a `k`-byte little-endian integer (`ByteReader::read_raw`),
returning the value and remaining bytes, or `none` when truncated. -/
def readLE : Nat → List Nat → Option (Nat × List Nat)
  | 0, bytes => some (0, bytes)
  | _ + 1, [] => none
  | k + 1, b :: rest =>
      match readLE k rest with
      | none => none
      | some (v, rem) => some (b + 256 * v, rem)

/-- Mirrors `ByteReader::read_bytes`: a raw byte span of the given length. -/
def readBytesN (count : Nat) (bytes : List Nat) : Option (List Nat × List Nat) :=
  if bytes.length < count then none
  else some (bytes.take count, bytes.drop count)

/-- Two's-complement u64 image of an `int64_t` value (what `write_i64`'s
raw byte copy emits). -/
def i64ToU64 (v : Int) : Nat := (v % (2 ^ 64 : Int)).toNat

/-- Signed reading of the u64 pattern obtained by `read_i64`. -/
def u64ToI64 (u : Nat) : Int :=
  if u < 2 ^ 63 then (u : Int) else (u : Int) - 2 ^ 64

/-- Encoding of one instruction: `opcode: u8`, `operand: u32`. -/
def serializeInstruction (i : Instruction) : List Nat :=
  leBytes 1 i.opcode ++ leBytes 4 i.operand

/-- The instruction table, in order. -/
def serializeInstructions : List Instruction → List Nat
  | [] => []
  | i :: rest => serializeInstruction i ++ serializeInstructions rest

/-- Encoding of one constant: a tag byte followed by the payload.  Both
string variants are emitted through `expect_string` under tag 3 (only
owned strings are materialized on decode); oversized string or buffer
payloads fail with `malformed_bytecode`. -/
def serializeConstant (c : Value) : Result (List Nat) :=
  match c with
  | .empty => .ok [0]
  | .i64 v => .ok (1 :: leBytes 8 (i64ToU64 v))
  | .f64 bits => .ok (2 :: leBytes 8 bits)
  | .borrowed_string s =>
      if 2 ^ 32 - 1 < s.length then
        make_unexpected .malformed_bytecode
          "String constant exceeds bytecode format size limits."
      else .ok (3 :: (leBytes 4 s.length ++ s))
  | .owned_string s =>
      if 2 ^ 32 - 1 < s.length then
        make_unexpected .malformed_bytecode
          "String constant exceeds bytecode format size limits."
      else .ok (3 :: (leBytes 4 s.length ++ s))
  | .buffer b =>
      if 2 ^ 32 - 1 < b.size then
        make_unexpected .malformed_bytecode
          "Buffer constant exceeds bytecode format size limits."
      else .ok (4 :: (leBytes 4 b.size ++ b.data))

/-- The constant table, in order; the first oversized constant aborts. -/
def serializeConstants : List Value → Result (List Nat)
  | [] => .ok []
  | c :: rest =>
      match serializeConstant c with
      | .error e => .error e
      | .ok bs =>
          match serializeConstants rest with
          | .error e => .error e
          | .ok bss => .ok (bs ++ bss)

/-- Encoding of one function entry: three u32 fields. -/
def serializeFunction (f : ProgFunction) : List Nat :=
  leBytes 4 f.entry ++ leBytes 4 f.arity ++ leBytes 4 f.local_count

/-- The function table, in order. -/
def serializeFunctions : List ProgFunction → List Nat
  | [] => []
  | f :: rest => serializeFunction f ++ serializeFunctions rest

/-- Mirrors `serialize_program`: size-limit check, 16-byte header (magic,
version, reserved 0, three counts), then the instruction, constant and
function tables. -/
def serialize_program (P : Program) : Result MoveBuffer :=
  if 2 ^ 32 - 1 < P.code.length ∨ 2 ^ 32 - 1 < P.constants.length ∨
      2 ^ 32 - 1 < P.functions.length then
    make_unexpected .malformed_bytecode "Program exceeds bytecode format size limits."
  else
    match serializeConstants P.constants with
    | .error e => .error e
    | .ok constantBytes =>
        .ok ⟨leBytes 4 bytecode_magic ++ leBytes 2 bytecode_version ++
             leBytes 2 0 ++ leBytes 4 P.code.length ++
             leBytes 4 P.constants.length ++ leBytes 4 P.functions.length ++
             serializeInstructions P.code ++ constantBytes ++
             serializeFunctions P.functions⟩

/-- Reads `n` instructions (`opcode: u8`, `operand: u32` each). -/
def readInstructions : Nat → List Nat → Result (List Instruction × List Nat)
  | 0, bytes => .ok ([], bytes)
  | n + 1, bytes =>
      match readLE 1 bytes with
      | none => make_unexpected .malformed_bytecode "Instruction table is truncated."
      | some (op, r1) =>
          match readLE 4 r1 with
          | none => make_unexpected .malformed_bytecode "Instruction table is truncated."
          | some (operand, r2) =>
              match readInstructions n r2 with
              | .error e => .error e
              | .ok (instrs, rem) => .ok (⟨op, operand⟩ :: instrs, rem)

/-- Reads one tagged constant.  Tag 3 always materializes an owned string;
unknown tags are rejected. -/
def readConstant (bytes : List Nat) : Result (Value × List Nat) :=
  match bytes with
  | [] => make_unexpected .malformed_bytecode "Constant table is truncated."
  | tag :: r0 =>
      match tag with
      | 0 => .ok (.empty, r0)
      | 1 =>
          match readLE 8 r0 with
          | none => make_unexpected .malformed_bytecode "i64 constant is truncated."
          | some (u, r1) => .ok (.i64 (u64ToI64 u), r1)
      | 2 =>
          match readLE 8 r0 with
          | none => make_unexpected .malformed_bytecode "f64 constant is truncated."
          | some (u, r1) => .ok (.f64 u, r1)
      | 3 =>
          match readLE 4 r0 with
          | none =>
              make_unexpected .malformed_bytecode "String constant length is truncated."
          | some (len, r1) =>
              match readBytesN len r1 with
              | none =>
                  make_unexpected .malformed_bytecode
                    "String constant payload is truncated."
              | some (content, r2) => .ok (.owned_string content, r2)
      | 4 =>
          match readLE 4 r0 with
          | none =>
              make_unexpected .malformed_bytecode "Buffer constant length is truncated."
          | some (len, r1) =>
              match readBytesN len r1 with
              | none =>
                  make_unexpected .malformed_bytecode
                    "Buffer constant payload is truncated."
              | some (content, r2) => .ok (.buffer ⟨content⟩, r2)
      | _ => make_unexpected .malformed_bytecode "Unknown constant tag in bytecode."

/-- Reads `n` constants. -/
def readConstants : Nat → List Nat → Result (List Value × List Nat)
  | 0, bytes => .ok ([], bytes)
  | n + 1, bytes =>
      match readConstant bytes with
      | .error e => .error e
      | .ok (c, r1) =>
          match readConstants n r1 with
          | .error e => .error e
          | .ok (cs, rem) => .ok (c :: cs, rem)

/-- Reads `n` function entries (three u32 fields each). -/
def readFunctions : Nat → List Nat → Result (List ProgFunction × List Nat)
  | 0, bytes => .ok ([], bytes)
  | n + 1, bytes =>
      match readLE 4 bytes with
      | none => make_unexpected .malformed_bytecode "Function table is truncated."
      | some (entry, r1) =>
          match readLE 4 r1 with
          | none => make_unexpected .malformed_bytecode "Function table is truncated."
          | some (arity, r2) =>
              match readLE 4 r2 with
              | none => make_unexpected .malformed_bytecode "Function table is truncated."
              | some (local_count, r3) =>
                  match readFunctions n r3 with
                  | .error e => .error e
                  | .ok (fns, rem) => .ok (⟨entry, arity, local_count⟩ :: fns, rem)

/-- Mirrors `deserialize_program`: read the full header, check magic and
version, read the three tables, and reject trailing bytes. -/
def deserialize_program (bytes : List Nat) : Result Program :=
  match readLE 4 bytes with
  | none => make_unexpected .malformed_bytecode "Bytecode header is truncated."
  | some (magic, r1) =>
  match readLE 2 r1 with
  | none => make_unexpected .malformed_bytecode "Bytecode header is truncated."
  | some (version, r2) =>
  match readLE 2 r2 with
  | none => make_unexpected .malformed_bytecode "Bytecode header is truncated."
  | some (_reserved, r3) =>
  match readLE 4 r3 with
  | none => make_unexpected .malformed_bytecode "Bytecode header is truncated."
  | some (instruction_count, r4) =>
  match readLE 4 r4 with
  | none => make_unexpected .malformed_bytecode "Bytecode header is truncated."
  | some (constant_count, r5) =>
  match readLE 4 r5 with
  | none => make_unexpected .malformed_bytecode "Bytecode header is truncated."
  | some (function_count, r6) =>
  if magic ≠ bytecode_magic then
    make_unexpected .invalid_bytecode_magic "Bytecode magic number mismatch."
  else if version ≠ bytecode_version then
    make_unexpected .unsupported_bytecode_version "Unsupported bytecode version."
  else
    match readInstructions instruction_count r6 with
    | .error e => .error e
    | .ok (code, r7) =>
        match readConstants constant_count r7 with
        | .error e => .error e
        | .ok (constants, r8) =>
            match readFunctions function_count r8 with
            | .error e => .error e
            | .ok (functions, r9) =>
                if r9 ≠ [] then
                  make_unexpected .malformed_bytecode
                    "Bytecode payload has trailing bytes."
                else .ok ⟨code, constants, functions⟩

/-- Decoding image of a constant: tag 3 erases string borrowedness. -/
def normalizeConstant : Value → Value
  | .borrowed_string s => .owned_string s
  | c => c

/-- Encodability of one constant: payload byte values and size limits. -/
def WellFormedConstant : Value → Prop
  | .empty => True
  | .i64 v => -(2 ^ 63) ≤ v ∧ v < 2 ^ 63
  | .f64 bits => bits < 2 ^ 64
  | .borrowed_string s => s.length < 2 ^ 32 ∧ ∀ b ∈ s, b < 256
  | .owned_string s => s.length < 2 ^ 32 ∧ ∀ b ∈ s, b < 256
  | .buffer b => b.data.length < 2 ^ 32 ∧ ∀ x ∈ b.data, x < 256

/-- Well-formedness of a program for the bytecode format: all table sizes,
operands, u32 fields and constant payloads within the fixed-width ranges. -/
def WellFormedProgram (P : Program) : Prop :=
  P.code.length < 2 ^ 32 ∧ P.constants.length < 2 ^ 32 ∧
  P.functions.length < 2 ^ 32 ∧
  (∀ i ∈ P.code, i.opcode < 256 ∧ i.operand < 2 ^ 32) ∧
  (∀ c ∈ P.constants, WellFormedConstant c) ∧
  (∀ f ∈ P.functions, f.entry < 2 ^ 32 ∧ f.arity < 2 ^ 32 ∧
    f.local_count < 2 ^ 32)

/-- Replaces the observability fields of a state (profile counters and trace
log), keeping the execution-relevant core. -/
def withAux (s : VMState) (p : ProfileStats) (t : List TraceEvent) : VMState :=
  { s with profile := p, trace_log := t }

/-- Maps `withAux` over the state of a running outcome. -/
def outcomeWithAux (o : StepOutcome) (p : ProfileStats) (t : List TraceEvent) :
    StepOutcome :=
  match o with
  | .next s => .next (withAux s p t)
  | o => o

/-- Canonizes the observability fields of a running outcome. -/
def stripOutcome (o : StepOutcome) : StepOutcome :=
  outcomeWithAux o ProfileStats.init []

/-- The final projection of `run_unchecked`: terminated outcomes become the
run result, a still-running outcome means fuel ran out. -/
def outcomeResult : StepOutcome → Option (Result Value)
  | .done v => some (.ok v)
  | .failed e => some (.error e)
  | .next _ => none

/-- Bumps the executed-step counter (`++executed_steps`). -/
def bumpSteps (s : VMState) : VMState :=
  { s with executed_steps := s.executed_steps + 1 }

/-- Local verification condition at a visited PC: the instruction exists,
its effect succeeds at the recorded entry depth and does not underflow, any
explicit target is in range and is recorded with the resulting depth, and a
fallthrough successor (possibly the implicit end) is recorded with
the resulting depth. -/
def Checked (natives : List NativeBinding) (P : Program) (available_inputs : Nat)
    (D : List (Option Nat)) (e : Option Nat) (pc d : Nat) : Prop :=
  ∃ instr eff, P.code.get? pc = some instr ∧
    instructionEffect natives P available_inputs instr d = .ok eff ∧
    eff.pops ≤ d ∧
    (∀ t, eff.target = some t → t < P.code.length ∧
      D.getD t none = some (d - eff.pops + eff.pushes)) ∧
    (eff.fallthrough = true →
      depthAt D e (pc + 1) P.code.length = some (d - eff.pops + eff.pushes))

/-- Worklist-loop invariant: the depth table has one slot per instruction,
every worklist entry has a recorded depth, and every recorded PC is either
still awaiting processing or locally checked. -/
def WInv (natives : List NativeBinding) (P : Program) (available_inputs : Nat)
    (st : VerifySt) : Prop :=
  st.depths.length = P.code.length ∧
  (∀ q, q ∈ st.worklist → ∃ dq, st.depths.getD q none = some dq) ∧
  (∀ pc d, st.depths.getD pc none = some d →
    pc ∈ st.worklist ∨ Checked natives P available_inputs st.depths st.end_depth pc d)

/-- Runtime counterpart of the verifier's depth table: whenever no call
frame is active the current stack depth is the recorded depth for the
current PC, and the bottom-most (first-pushed) call frame always returns to
a PC recorded at depth `base + 1`. -/
def RunInv (D : List (Option Nat)) (e : Option Nat) (code_len : Nat)
    (s : VMState) : Prop :=
  (s.frames = [] → depthAt D e s.pc code_len = some s.stack.length) ∧
  (∀ b, s.frames.getLast? = some b →
    depthAt D e b.return_pc code_len = some (b.base + 1))

theorem Arena.registerAll_eq (a : Arena) (objects : List Nat) :
    a.registerAll objects
      = ⟨a.tracked ++ objects.map (fun o => ⟨o, true⟩), a.destroyed⟩ := by
  induction objects generalizing a with
  | nil => simp [Arena.registerAll]
  | cons o rest ih =>
      have h := ih (a.register_destructor o)
      simp only [Arena.registerAll, List.foldl_cons] at *
      simpa [Arena.register_destructor, List.append_assoc] using h

theorem destructionOrder_fresh (objects : List Nat) :
    destructionOrder (objects.map (fun o => ⟨o, true⟩)) = objects.reverse := by
  simp only [destructionOrder, ← List.map_reverse]
  induction objects.reverse with
  | nil => rfl
  | cons o rest ih => simpa [List.filter] using ih

theorem Arena.rewind_at_split (front : List TrackedAllocation)
    (objects : List Nat) (log : List Nat) :
    Arena.rewind ⟨front ++ objects.map (fun o => ⟨o, true⟩), log⟩ front.length
      = ⟨front, log ++ objects.reverse⟩ := by
  simp [Arena.rewind, destructionOrder_fresh, List.take_left, List.drop_left,
    Nat.min_eq_left (Nat.le_add_right _ _)]

theorem Arena.destroyMarker_mark_split (front : List TrackedAllocation)
    (objects : List Nat) (log : List Nat) :
    (Arena.mk (front ++ objects.map (fun o => ⟨o, true⟩)) log).destroyMarker
        ⟨front.length, true⟩
      = ⟨front, log ++ objects.reverse⟩ := by
  simp only [Arena.destroyMarker, if_pos]
  exact Arena.rewind_at_split _ _ _

/-- C9.  Arena rewind is strictly LIFO: destroying a marker runs exactly the
destructors registered after the marker's creation, in reverse registration
order, and truncates the tracking list back to the marker's position.  For
nested markers `m1` created before `m2`, destroying `m2` runs exactly the
destructors registered after `m2` (in reverse order), and destroying `m1`
afterwards runs exactly the remainder registered between `m1` and `m2`;
releasing a marker cancels its rewind. -/
theorem arena_marker_lifo_rewind (a : Arena) (xs ys : List Nat) :
    (((a.registerAll xs).registerAll ys).destroyMarker
        (a.registerAll xs).mark).destroyed
      = a.destroyed ++ ys.reverse ∧
    (((a.registerAll xs).registerAll ys).destroyMarker
        (a.registerAll xs).mark).tracked
      = (a.registerAll xs).tracked ∧
    ((((a.registerAll xs).registerAll ys).destroyMarker
        (a.registerAll xs).mark).destroyMarker a.mark).destroyed
      = a.destroyed ++ ys.reverse ++ xs.reverse ∧
    ((((a.registerAll xs).registerAll ys).destroyMarker
        (a.registerAll xs).mark).destroyMarker a.mark).tracked
      = a.tracked ∧
    ((a.registerAll xs).registerAll ys).destroyMarker
        ((a.registerAll xs).mark).release
      = (a.registerAll xs).registerAll ys := by
  have hx := Arena.registerAll_eq a xs
  have hy := Arena.registerAll_eq (a.registerAll xs) ys
  have hmark : (a.registerAll xs).mark = ⟨(a.registerAll xs).tracked.length, true⟩ := rfl
  have step2 : ((a.registerAll xs).registerAll ys).destroyMarker
      (a.registerAll xs).mark
      = ⟨(a.registerAll xs).tracked, a.destroyed ++ ys.reverse⟩ := by
    rw [hy, hmark]
    have hd : (a.registerAll xs).destroyed = a.destroyed := by rw [hx]
    rw [hd]
    simp only [Arena.destroyMarker, if_pos]
    exact Arena.rewind_at_split _ _ _
  refine ⟨by rw [step2], by rw [step2], ?_, ?_, ?_⟩
  · rw [step2, hx]
    have := Arena.destroyMarker_mark_split a.tracked xs (a.destroyed ++ ys.reverse)
    rw [show (Arena.mk (a.tracked ++ xs.map (fun o => ⟨o, true⟩))
      (a.destroyed ++ ys.reverse)).destroyMarker a.mark
      = ⟨a.tracked, (a.destroyed ++ ys.reverse) ++ xs.reverse⟩ from this]
  · rw [step2, hx]
    have := Arena.destroyMarker_mark_split a.tracked xs (a.destroyed ++ ys.reverse)
    rw [show (Arena.mk (a.tracked ++ xs.map (fun o => ⟨o, true⟩))
      (a.destroyed ++ ys.reverse)).destroyMarker a.mark
      = ⟨a.tracked, (a.destroyed ++ ys.reverse) ++ xs.reverse⟩ from this]
  · simp [Arena.destroyMarker, ArenaMarker.release]

/-- C10.  Copying a Value whose active variant is MoveBuffer performs a deep
byte copy: the copy is a buffer of the same size with equal bytes (held in
freshly constructed storage by `MoveBuffer.deep_copy`), the source is
unchanged (copying is a pure function of the source), and `Value.copy` is
total — it never raises an error for any variant. -/
theorem value_copy_deep_copies_buffers :
    (∀ v : Value, v.copy = v) ∧
    (∀ b : MoveBuffer,
      (Value.buffer b).copy = .buffer b.deep_copy ∧
      b.deep_copy.data = b.data ∧ b.deep_copy.size = b.size) := by
  have hbuf : ∀ b : MoveBuffer, b.deep_copy = b := by
    intro b
    cases b with
    | mk data =>
      cases data with
      | nil => rfl
      | cons x rest => rfl
  constructor
  · intro v
    cases v <;> simp [Value.copy, hbuf]
  · intro b
    refine ⟨rfl, ?_, ?_⟩ <;> rw [hbuf]

theorem recordInstr_pc (cfg : VMConfig) (s : VMState) (i : Instruction) :
    (recordInstr cfg s i).pc = s.pc := by
  unfold recordInstr
  dsimp only
  split <;> split <;> rfl

theorem recordInstr_stack (cfg : VMConfig) (s : VMState) (i : Instruction) :
    (recordInstr cfg s i).stack = s.stack := by
  unfold recordInstr
  dsimp only
  split <;> split <;> rfl

theorem recordInstr_frames (cfg : VMConfig) (s : VMState) (i : Instruction) :
    (recordInstr cfg s i).frames = s.frames := by
  unfold recordInstr
  dsimp only
  split <;> split <;> rfl

theorem recordInstr_inputs (cfg : VMConfig) (s : VMState) (i : Instruction) :
    (recordInstr cfg s i).inputs = s.inputs := by
  unfold recordInstr
  dsimp only
  split <;> split <;> rfl

theorem bookkeep_pc (cfg : VMConfig) (s : VMState) (i : Instruction) :
    (bookkeep cfg s i).pc = s.pc := recordInstr_pc cfg s i

theorem bookkeep_stack (cfg : VMConfig) (s : VMState) (i : Instruction) :
    (bookkeep cfg s i).stack = s.stack := recordInstr_stack cfg s i

theorem bookkeep_frames (cfg : VMConfig) (s : VMState) (i : Instruction) :
    (bookkeep cfg s i).frames = s.frames := recordInstr_frames cfg s i

theorem bookkeep_inputs (cfg : VMConfig) (s : VMState) (i : Instruction) :
    (bookkeep cfg s i).inputs = s.inputs := recordInstr_inputs cfg s i

theorem bookkeep_steps (cfg : VMConfig) (s : VMState) (i : Instruction) :
    (bookkeep cfg s i).executed_steps = s.executed_steps + 1 := rfl

theorem stepVM_dispatch (cfg : VMConfig) (s : VMState) (i : Instruction)
    (hget : cfg.program.code.get? s.pc = some i)
    (hb : cfg.step_budget = 0 ∨ s.executed_steps < cfg.step_budget) :
    stepVM cfg s = execInstr cfg (bookkeep cfg s i) i := by
  unfold stepVM
  rw [hget]
  dsimp only
  rw [if_neg]
  rintro ⟨h1, h2⟩
  rcases hb with hb | hb
  · exact h1 hb
  · omega

/-- C7.  Executing `halt` (when the step budget is not exhausted) returns
the current top of stack as the program result, or an empty Value if the
stack is empty; and falling off the end of `code` (PC beyond the last
instruction) produces exactly the same result (`haltResult` of the same
stack). -/
theorem halt_and_implicit_end_return_top (cfg : VMConfig) (s : VMState)
    (i : Instruction) :
    (cfg.program.code.get? s.pc = some i →
      decodeOp i.opcode = some OpCode.halt →
      (cfg.step_budget = 0 ∨ s.executed_steps < cfg.step_budget) →
      stepVM cfg s = .done (haltResult s.stack)) ∧
    (cfg.program.code.get? s.pc = none →
      stepVM cfg s = .done (haltResult s.stack)) := by
  constructor
  · intro hget hdec hb
    rw [stepVM_dispatch cfg s i hget hb]
    unfold execInstr
    rw [hdec]
    dsimp only
    rw [bookkeep_stack]
    cases s.stack <;> rfl
  · intro hnone
    unfold stepVM
    rw [hnone]
    cases s.stack <;> rfl

theorem halt_and_implicit_end_return_top_witness :
    stepVM ⟨⟨[⟨22, 0⟩], [], []⟩, [], 0, false, false⟩
        ⟨0, [Value.i64 42], [], [], 0, ProfileStats.init, []⟩
      = .done (haltResult [Value.i64 42]) ∧
    stepVM ⟨⟨[⟨22, 0⟩], [], []⟩, [], 0, false, false⟩
        ⟨1, [Value.i64 7], [], [], 0, ProfileStats.init, []⟩
      = .done (haltResult [Value.i64 7]) := by
  constructor
  · exact (halt_and_implicit_end_return_top _ _ ⟨22, 0⟩).1 rfl rfl (Or.inl rfl)
  · exact (halt_and_implicit_end_return_top _ _ ⟨22, 0⟩).2 rfl

/-- C8.  Executing `push_input i` with `i < inputs.size` (budget permitting)
pushes the value stored in input slot `i`, sets slot `i` to the empty Value
and leaves every other slot unchanged; afterwards slot `i` reads as empty,
so a subsequent `push_input` of the same index pushes an empty Value. -/
theorem push_input_moves_out_slot (cfg : VMConfig) (s : VMState)
    (i : Instruction) (v : Value) :
    (cfg.program.code.get? s.pc = some i →
      decodeOp i.opcode = some OpCode.push_input →
      (cfg.step_budget = 0 ∨ s.executed_steps < cfg.step_budget) →
      s.inputs.get? i.operand = some v →
      stepVM cfg s = .next { bookkeep cfg s i with
        stack := v :: s.stack,
        inputs := s.inputs.set i.operand .empty,
        pc := s.pc + 1 }) ∧
    (s.inputs.get? i.operand = some v →
      (s.inputs.set i.operand .empty).get? i.operand = some .empty) ∧
    (∀ j, j ≠ i.operand →
      (s.inputs.set i.operand .empty).get? j = s.inputs.get? j) := by
  refine ⟨?_, ?_, ?_⟩
  · intro hget hdec hb hin
    rw [stepVM_dispatch cfg s i hget hb]
    unfold execInstr
    rw [hdec]
    dsimp only
    rw [bookkeep_inputs, hin]
    dsimp only
    rw [bookkeep_stack, bookkeep_pc]
  · intro hin
    have hlt : i.operand < s.inputs.length := by
      by_contra hge
      rw [List.get?_eq_none.2 (by omega)] at hin
      exact Option.noConfusion hin
    rw [List.get?_eq_getElem?]
    exact List.getElem?_set_eq_of_lt Value.empty hlt
  · intro j hj
    rw [List.get?_eq_getElem?, List.get?_eq_getElem?]
    exact List.getElem?_set_ne (Ne.symm hj)

theorem push_input_moves_out_slot_witness :
    stepVM ⟨⟨[⟨1, 0⟩], [], []⟩, [], 0, false, false⟩
        ⟨0, [], [], [Value.i64 5, Value.i64 6], 0, ProfileStats.init, []⟩
      = .next { bookkeep ⟨⟨[⟨1, 0⟩], [], []⟩, [], 0, false, false⟩
          ⟨0, [], [], [Value.i64 5, Value.i64 6], 0, ProfileStats.init, []⟩ ⟨1, 0⟩ with
        stack := [Value.i64 5],
        inputs := [Value.empty, Value.i64 6],
        pc := 1 } ∧
    ([Value.i64 5, Value.i64 6].set 0 Value.empty).get? 0 = some Value.empty := by
  constructor
  · exact (push_input_moves_out_slot _
      ⟨0, [], [], [Value.i64 5, Value.i64 6], 0, ProfileStats.init, []⟩
      ⟨1, 0⟩ (Value.i64 5)).1 rfl rfl (Or.inl rfl) rfl
  · exact (push_input_moves_out_slot ⟨⟨[⟨1, 0⟩], [], []⟩, [], 0, false, false⟩
      ⟨0, [], [], [Value.i64 5, Value.i64 6], 0, ProfileStats.init, []⟩
      ⟨1, 0⟩ (Value.i64 5)).2.1 rfl

/-- C6.  `mod_i64` with an i64 divisor equal to 0 fails with
`division_by_zero`, and `shl_i64`/`shr_i64` with an i64 shift amount outside
`[0, 63]` fail with `invalid_shift_amount` — identically on the ordinary
two-pop path (the `execute_*` helpers invoked by the dispatch loop; a
`.error` result is returned from the loop via `binaryOutcome`) and on the
fused constant-rhs path of `push_constant`. -/
theorem mod_zero_and_shift_range_errors :
    (∀ (a : Int) (rest : List Value),
      execute_mod_i64 (Value.i64 0 :: Value.i64 a :: rest)
        = .error ⟨.division_by_zero, "mod_i64 divisor cannot be zero."⟩) ∧
    (∀ (a sh : Int) (rest : List Value), (sh < 0 ∨ 63 < sh) →
      execute_shl_i64 (Value.i64 sh :: Value.i64 a :: rest)
        = .error ⟨.invalid_shift_amount, "shl_i64 shift amount must be in [0, 63]."⟩) ∧
    (∀ (a sh : Int) (rest : List Value), (sh < 0 ∨ 63 < sh) →
      execute_shr_i64 (Value.i64 sh :: Value.i64 a :: rest)
        = .error ⟨.invalid_shift_amount, "shr_i64 shift amount must be in [0, 63]."⟩) ∧
    (∀ (s : VMState) (e : Error), binaryOutcome s (.error e) = .failed e) ∧
    (∀ (cfg : VMConfig) (s : VMState) (i nexti : Instruction) (l : Int)
        (rest : List Value),
      decodeOp i.opcode = some OpCode.push_constant →
      cfg.program.constants.get? i.operand = some (Value.i64 0) →
      cfg.program.code.get? (s.pc + 1) = some nexti →
      decodeOp nexti.opcode = some OpCode.mod_i64 →
      s.stack = Value.i64 l :: rest →
      execInstr cfg s i
        = .failed ⟨.division_by_zero, "mod_i64 divisor cannot be zero."⟩) ∧
    (∀ (cfg : VMConfig) (s : VMState) (i nexti : Instruction) (l sh : Int)
        (rest : List Value), (sh < 0 ∨ 63 < sh) →
      decodeOp i.opcode = some OpCode.push_constant →
      cfg.program.constants.get? i.operand = some (Value.i64 sh) →
      cfg.program.code.get? (s.pc + 1) = some nexti →
      decodeOp nexti.opcode = some OpCode.shl_i64 →
      s.stack = Value.i64 l :: rest →
      execInstr cfg s i
        = .failed ⟨.invalid_shift_amount, "shl_i64 shift amount must be in [0, 63]."⟩) ∧
    (∀ (cfg : VMConfig) (s : VMState) (i nexti : Instruction) (l sh : Int)
        (rest : List Value), (sh < 0 ∨ 63 < sh) →
      decodeOp i.opcode = some OpCode.push_constant →
      cfg.program.constants.get? i.operand = some (Value.i64 sh) →
      cfg.program.code.get? (s.pc + 1) = some nexti →
      decodeOp nexti.opcode = some OpCode.shr_i64 →
      s.stack = Value.i64 l :: rest →
      execInstr cfg s i
        = .failed ⟨.invalid_shift_amount, "shr_i64 shift amount must be in [0, 63]."⟩) := by
  refine ⟨?_, ?_, ?_, ?_, ?_, ?_, ?_⟩
  · intro a rest
    rfl
  · intro a sh rest hsh
    simp only [execute_shl_i64, binary_i64_op, pop_value, Value.expect_i64]
    rw [if_pos hsh]
    rfl
  · intro a sh rest hsh
    simp only [execute_shr_i64, binary_i64_op, pop_value, Value.expect_i64]
    rw [if_pos hsh]
    rfl
  · intro s e
    rfl
  · intro cfg s i nexti l rest hdec hconst hcode hnext hstack
    unfold execInstr
    rw [hdec]
    dsimp only
    rw [hconst]
    dsimp only
    rw [hcode, hstack]
    dsimp only [Value.expect_i64]
    unfold fused_i64_result
    rw [hnext]
    rfl
  · intro cfg s i nexti l sh rest hsh hdec hconst hcode hnext hstack
    unfold execInstr
    rw [hdec]
    dsimp only
    rw [hconst]
    dsimp only
    rw [hcode, hstack]
    dsimp only [Value.expect_i64]
    unfold fused_i64_result
    rw [hnext]
    dsimp only
    rw [if_pos hsh]
    rfl
  · intro cfg s i nexti l sh rest hsh hdec hconst hcode hnext hstack
    unfold execInstr
    rw [hdec]
    dsimp only
    rw [hconst]
    dsimp only
    rw [hcode, hstack]
    dsimp only [Value.expect_i64]
    unfold fused_i64_result
    rw [hnext]
    dsimp only
    rw [if_pos hsh]
    rfl

theorem mod_zero_and_shift_range_errors_witness :
    execute_mod_i64 [Value.i64 0, Value.i64 7]
      = .error ⟨.division_by_zero, "mod_i64 divisor cannot be zero."⟩ ∧
    execute_shl_i64 [Value.i64 64, Value.i64 1]
      = .error ⟨.invalid_shift_amount, "shl_i64 shift amount must be in [0, 63]."⟩ ∧
    execute_shr_i64 [Value.i64 64, Value.i64 1]
      = .error ⟨.invalid_shift_amount, "shr_i64 shift amount must be in [0, 63]."⟩ ∧
    execInstr ⟨⟨[⟨0, 0⟩, ⟨5, 0⟩], [Value.i64 0], []⟩, [], 0, false, false⟩
        ⟨0, [Value.i64 9], [], [], 0, ProfileStats.init, []⟩ ⟨0, 0⟩
      = .failed ⟨.division_by_zero, "mod_i64 divisor cannot be zero."⟩ ∧
    execInstr ⟨⟨[⟨0, 0⟩, ⟨11, 0⟩], [Value.i64 64], []⟩, [], 0, false, false⟩
        ⟨0, [Value.i64 9], [], [], 0, ProfileStats.init, []⟩ ⟨0, 0⟩
      = .failed ⟨.invalid_shift_amount, "shl_i64 shift amount must be in [0, 63]."⟩ ∧
    execInstr ⟨⟨[⟨0, 0⟩, ⟨12, 0⟩], [Value.i64 64], []⟩, [], 0, false, false⟩
        ⟨0, [Value.i64 9], [], [], 0, ProfileStats.init, []⟩ ⟨0, 0⟩
      = .failed ⟨.invalid_shift_amount, "shr_i64 shift amount must be in [0, 63]."⟩ := by
  obtain ⟨h1, h2, h3, _, h5, h6, h7⟩ := mod_zero_and_shift_range_errors
  refine ⟨h1 7 [], h2 1 64 [] (Or.inr (by norm_num)),
    h3 1 64 [] (Or.inr (by norm_num)), ?_, ?_, ?_⟩
  · exact h5 _ _ ⟨0, 0⟩ ⟨5, 0⟩ 9 [] rfl rfl rfl rfl rfl
  · exact h6 _ _ ⟨0, 0⟩ ⟨11, 0⟩ 9 64 [] (Or.inr (by norm_num)) rfl rfl rfl rfl rfl
  · exact h7 _ _ ⟨0, 0⟩ ⟨12, 0⟩ 9 64 [] (Or.inr (by norm_num)) rfl rfl rfl rfl rfl

/-- C3 (counterexample).  A verified program with an in-range `push_constant`
of an i64 constant, a non-empty stack whose top is a string, and a
non-fusable next instruction (`pop`) does not simply push the constant: the
fusion prelude reads the stack top as i64 first and `run` fails with
`type_mismatch`, contradicting the claim. -/
theorem push_constant_no_fusion_raises_type_mismatch :
    verify [] ⟨[⟨0, 1⟩, ⟨0, 0⟩, ⟨16, 0⟩, ⟨16, 0⟩, ⟨22, 0⟩],
      [Value.i64 5, Value.owned_string [120]], []⟩ 0 = .ok () ∧
    run ⟨⟨[⟨0, 1⟩, ⟨0, 0⟩, ⟨16, 0⟩, ⟨16, 0⟩, ⟨22, 0⟩],
        [Value.i64 5, Value.owned_string [120]], []⟩, [], 0, false, false⟩ [] 10
      = some (.error ⟨.type_mismatch,
          "fused_i64 lhs expected i64 but got owned_string."⟩) := by
  constructor
  · rfl
  · rfl

/-- C3 (amended).  The fused computation runs only when the pushed constant
is i64, the stack is non-empty and the next instruction is a fusable
i64-binary opcode; but the fusion prelude reads the stack top as i64
whenever the constant is i64, the stack is non-empty and any next
instruction exists.  Consequently: the constant is simply pushed when the
constant is not i64, or the stack is empty, or there is no next instruction
(first conjunct), and also when the top is i64 and the next instruction is
not fusable (second conjunct); but when the constant is i64, the stack top
is not i64 and any next instruction exists — fusable or not — execution
fails with `type_mismatch` about the stack top (third conjunct). -/
theorem push_constant_fusion_gate (cfg : VMConfig) (s : VMState)
    (i : Instruction) (c : Value)
    (hdec : decodeOp i.opcode = some OpCode.push_constant)
    (hconst : cfg.program.constants.get? i.operand = some c) :
    ((c.is_i64 = false ∨ s.stack = [] ∨ cfg.program.code.get? (s.pc + 1) = none) →
      execInstr cfg s i = .next { s with stack := c :: s.stack, pc := s.pc + 1 }) ∧
    (∀ (r top : Int) (rest : List Value) (nexti : Instruction),
      c = .i64 r → s.stack = .i64 top :: rest →
      cfg.program.code.get? (s.pc + 1) = some nexti →
      fused_i64_result nexti.opcode top r = .ok none →
      execInstr cfg s i = .next { s with stack := c :: s.stack, pc := s.pc + 1 }) ∧
    (∀ (r : Int) (top : Value) (rest : List Value) (nexti : Instruction),
      c = .i64 r → s.stack = top :: rest → top.is_i64 = false →
      cfg.program.code.get? (s.pc + 1) = some nexti →
      execInstr cfg s i = .failed ⟨.type_mismatch,
        "fused_i64 lhs expected i64 but got " ++ Value.kind_name top.kind ++ "."⟩) := by
  refine ⟨?_, ?_, ?_⟩
  · intro h
    unfold execInstr
    rw [hdec]
    dsimp only
    rw [hconst]
    dsimp only
    cases hc : c <;> cases hnext : cfg.program.code.get? (s.pc + 1) <;>
      cases hstack : s.stack <;>
      first
        | rfl
        | (exfalso; rcases h with h | h | h <;> simp_all [Value.is_i64])
  · intro r top rest nexti hc hstack hnext hfused
    unfold execInstr
    rw [hdec]
    dsimp only
    rw [hconst]
    dsimp only
    subst hc
    rw [hnext, hstack]
    dsimp only [Value.expect_i64]
    rw [hfused]
  · intro r top rest nexti hc hstack htop hnext
    unfold execInstr
    rw [hdec]
    dsimp only
    rw [hconst]
    dsimp only
    subst hc
    rw [hnext, hstack]
    cases top <;> simp_all [Value.is_i64, Value.expect_i64, Value.kind,
      Value.kind_name, make_unexpected]

theorem push_constant_fusion_gate_witness :
    execInstr ⟨⟨[⟨0, 0⟩, ⟨22, 0⟩], [Value.owned_string [97]], []⟩, [], 0, false, false⟩
        ⟨0, [], [], [], 0, ProfileStats.init, []⟩ ⟨0, 0⟩
      = .next { (⟨0, [], [], [], 0, ProfileStats.init, []⟩ : VMState) with
          stack := [Value.owned_string [97]], pc := 1 } ∧
    execInstr ⟨⟨[⟨0, 0⟩, ⟨16, 0⟩], [Value.i64 3], []⟩, [], 0, false, false⟩
        ⟨0, [Value.i64 8], [], [], 0, ProfileStats.init, []⟩ ⟨0, 0⟩
      = .next { (⟨0, [Value.i64 8], [], [], 0, ProfileStats.init, []⟩ : VMState) with
          stack := [Value.i64 3, Value.i64 8], pc := 1 } ∧
    execInstr ⟨⟨[⟨0, 0⟩, ⟨16, 0⟩], [Value.i64 3], []⟩, [], 0, false, false⟩
        ⟨0, [Value.f64 0], [], [], 0, ProfileStats.init, []⟩ ⟨0, 0⟩
      = .failed ⟨.type_mismatch, "fused_i64 lhs expected i64 but got f64."⟩ := by
  refine ⟨?_, ?_, ?_⟩
  · exact (push_constant_fusion_gate
      ⟨⟨[⟨0, 0⟩, ⟨22, 0⟩], [Value.owned_string [97]], []⟩, [], 0, false, false⟩
      ⟨0, [], [], [], 0, ProfileStats.init, []⟩
      ⟨0, 0⟩ (Value.owned_string [97]) rfl rfl).1 (Or.inl rfl)
  · exact (push_constant_fusion_gate
      ⟨⟨[⟨0, 0⟩, ⟨16, 0⟩], [Value.i64 3], []⟩, [], 0, false, false⟩
      ⟨0, [Value.i64 8], [], [], 0, ProfileStats.init, []⟩ ⟨0, 0⟩ (Value.i64 3)
      rfl rfl).2.1 3 8 [] ⟨16, 0⟩ rfl rfl rfl rfl
  · exact (push_constant_fusion_gate
      ⟨⟨[⟨0, 0⟩, ⟨16, 0⟩], [Value.i64 3], []⟩, [], 0, false, false⟩
      ⟨0, [Value.f64 0], [], [], 0, ProfileStats.init, []⟩ ⟨0, 0⟩ (Value.i64 3)
      rfl rfl).2.2 3 (Value.f64 0) [] ⟨16, 0⟩ rfl rfl rfl rfl

theorem withAux_withAux (s : VMState) (p t p2 t2) :
    withAux (withAux s p t) p2 t2 = withAux s p2 t2 := rfl

theorem stripOutcome_withAux (o : StepOutcome) (p t) :
    stripOutcome (outcomeWithAux o p t) = stripOutcome o := by
  cases o <;> rfl

theorem outcomeResult_strip (o : StepOutcome) :
    outcomeResult (stripOutcome o) = outcomeResult o := by
  cases o <;> rfl

theorem execInstr_cfg_congr (cfg₁ cfg₂ : VMConfig) (s : VMState)
    (i : Instruction) (hP : cfg₁.program = cfg₂.program)
    (hN : cfg₁.natives = cfg₂.natives) :
    execInstr cfg₁ s i = execInstr cfg₂ s i := by
  cases cfg₁ with
  | mk P₁ N₁ b₁ pf₁ tr₁ =>
      cases cfg₂ with
      | mk P₂ N₂ b₂ pf₂ tr₂ =>
          cases hP
          cases hN
          rfl

theorem execInstr_withAux (cfg : VMConfig) (s : VMState) (p : ProfileStats)
    (t : List TraceEvent) (i : Instruction) :
    execInstr cfg (withAux s p t) i = outcomeWithAux (execInstr cfg s i) p t := by
  unfold execInstr outcomeWithAux withAux binaryOutcome
  cases hop : decodeOp i.opcode with
  | none => rfl
  | some op =>
      cases op <;> dsimp only <;>
        (repeat' first
          | rfl
          | split)

theorem bookkeep_eq_withAux (cfg : VMConfig) (s : VMState) (i : Instruction) :
    bookkeep cfg s i
      = withAux (bumpSteps s) (bookkeep cfg s i).profile (bookkeep cfg s i).trace_log := by
  apply VMState.ext <;>
    simp [withAux, bumpSteps, bookkeep_pc, bookkeep_stack, bookkeep_frames,
      bookkeep_inputs, bookkeep_steps]

theorem stepVM_core_congr (cfg₁ cfg₂ : VMConfig) (s₁ s₂ : VMState)
    (hP : cfg₁.program = cfg₂.program) (hN : cfg₁.natives = cfg₂.natives)
    (hB : cfg₁.step_budget = cfg₂.step_budget)
    (hs : withAux s₁ ProfileStats.init [] = withAux s₂ ProfileStats.init []) :
    stripOutcome (stepVM cfg₁ s₁) = stripOutcome (stepVM cfg₂ s₂) := by
  have hpc : s₁.pc = s₂.pc := by
    have h := congrArg VMState.pc hs
    exact h
  have hstack : s₁.stack = s₂.stack := by
    have h := congrArg VMState.stack hs
    exact h
  have hframes : s₁.frames = s₂.frames := by
    have h := congrArg VMState.frames hs
    exact h
  have hinputs : s₁.inputs = s₂.inputs := by
    have h := congrArg VMState.inputs hs
    exact h
  have hsteps : s₁.executed_steps = s₂.executed_steps := by
    have h := congrArg VMState.executed_steps hs
    exact h
  unfold stepVM
  rw [hP, hpc, hB, hsteps]
  cases hg : cfg₂.program.code.get? s₂.pc with
  | none =>
      dsimp only
      rw [hstack]
  | some instr =>
      dsimp only
      split
      · rfl
      · rw [bookkeep_eq_withAux cfg₁ s₁ instr, bookkeep_eq_withAux cfg₂ s₂ instr,
          execInstr_withAux, execInstr_withAux, stripOutcome_withAux,
          stripOutcome_withAux]
        have hbump : bumpSteps s₁ = withAux (bumpSteps s₂) s₁.profile s₁.trace_log := by
          apply VMState.ext <;>
            simp [bumpSteps, withAux, hpc, hstack, hframes, hinputs, hsteps]
        rw [hbump, execInstr_withAux, stripOutcome_withAux,
          execInstr_cfg_congr cfg₁ cfg₂ _ _ hP hN]

theorem advance_strip_congr (cfg₁ cfg₂ : VMConfig)
    (hP : cfg₁.program = cfg₂.program) (hN : cfg₁.natives = cfg₂.natives)
    (hB : cfg₁.step_budget = cfg₂.step_budget) :
    ∀ (n : Nat) (s₁ s₂ : VMState),
      withAux s₁ ProfileStats.init [] = withAux s₂ ProfileStats.init [] →
      stripOutcome (advance cfg₁ n s₁) = stripOutcome (advance cfg₂ n s₂) := by
  intro n
  induction n with
  | zero =>
      intro s₁ s₂ hs
      simpa [advance, stripOutcome, outcomeWithAux, withAux_withAux] using
        congrArg StepOutcome.next hs
  | succ n ih =>
      intro s₁ s₂ hs
      have hstep := stepVM_core_congr cfg₁ cfg₂ s₁ s₂ hP hN hB hs
      unfold advance
      cases h₁ : stepVM cfg₁ s₁ <;> cases h₂ : stepVM cfg₂ s₂ <;>
        rw [h₁, h₂] at hstep <;>
        simp only [stripOutcome, outcomeWithAux] at hstep <;>
        first
          | (exact Option.noConfusion hstep)
          | (exact StepOutcome.noConfusion hstep)
          | (injection hstep with hv; rw [hv])
          | (injection hstep with hv
             exact ih _ _ hv)

/-- C5.  Determinism and observability independence: `run` is (by shallow
embedding) a pure function of the program, the pushed inputs, the native
bindings (modelled as deterministic adapters), the step budget and the fuel,
and — the refutable content — its result does not depend on whether
profiling is enabled or a trace sink is installed. -/
theorem run_result_independent_of_profiling_and_tracing (P : Program)
    (natives : List NativeBinding) (budget fuel : Nat) (inputs : List Value)
    (prof₁ prof₂ trace₁ trace₂ : Bool) :
    run ⟨P, natives, budget, prof₁, trace₁⟩ inputs fuel
      = run ⟨P, natives, budget, prof₂, trace₂⟩ inputs fuel := by
  unfold run
  dsimp only
  cases hv : verify natives P inputs.length with
  | error e => rfl
  | ok _ =>
      show run_unchecked _ inputs fuel = run_unchecked _ inputs fuel
      have hrw : ∀ (cfg : VMConfig), run_unchecked cfg inputs fuel
          = outcomeResult (advance cfg fuel (initState inputs)) := by
        intro cfg
        unfold run_unchecked outcomeResult
        cases advance cfg fuel (initState inputs) <;> rfl
      rw [hrw, hrw, ← outcomeResult_strip,
        advance_strip_congr ⟨P, natives, budget, prof₁, trace₁⟩
          ⟨P, natives, budget, prof₂, trace₂⟩ rfl rfl rfl fuel
          (initState inputs) (initState inputs) rfl,
        outcomeResult_strip]

theorem getD_set_self (l : List (Option Nat)) (i : Nat) (v : Option Nat)
    (h : i < l.length) : (l.set i v).getD i none = v := by
  simp [List.getD_eq_getElem?_getD, List.getElem?_set_self h]

theorem getD_set_ne (l : List (Option Nat)) (i j : Nat) (v : Option Nat)
    (h : i ≠ j) : (l.set i v).getD j none = l.getD j none := by
  simp [List.getD_eq_getElem?_getD, List.getElem?_set_ne h]

theorem getD_replicate_none (n q : Nat) :
    (List.replicate n (none : Option Nat)).getD q none = none := by
  rw [List.getD_eq_getElem?_getD, List.getElem?_replicate]
  split <;> rfl

theorem getD_lt_length {l : List (Option Nat)} {q d : Nat}
    (h : l.getD q none = some d) : q < l.length := by
  by_contra hq
  rw [List.getD_eq_getElem?_getD, List.getElem?_eq_none (by omega)] at h
  exact Option.noConfusion h

theorem enqueue_successor_ok (len : Nat) (st : VerifySt) (pc d : Nat)
    (st' : VerifySt) (hlen : st.depths.length = len)
    (h : enqueue_successor len st pc d = .ok st') :
    st'.depths.length = len ∧
    (∀ q dq, st.depths.getD q none = some dq → st'.depths.getD q none = some dq) ∧
    (∀ de, st.end_depth = some de → st'.end_depth = some de) ∧
    (∀ q, q ∈ st.worklist → q ∈ st'.worklist) ∧
    (∀ q, q ∈ st'.worklist → q ∈ st.worklist ∨
      (q = pc ∧ q < len ∧ st'.depths.getD q none = some d)) ∧
    depthAt st'.depths st'.end_depth pc len = some d ∧
    (∀ q dq, st'.depths.getD q none = some dq →
      st.depths.getD q none = some dq ∨ (q = pc ∧ dq = d ∧ q ∈ st'.worklist)) ∧
    (∀ de, st'.end_depth = some de → st.end_depth = some de ∨ de = d) := by
  unfold enqueue_successor at h
  split at h
  · next hpc =>
      subst hpc
      split at h
      · next hend =>
          injection h with h
          subst h
          refine ⟨hlen, fun q dq hq => hq, ?_, fun q hq => hq, fun q hq => Or.inl hq,
            ?_, fun q dq hq => Or.inl hq, ?_⟩
          · intro de hde
            rw [hde] at hend
            exact Option.noConfusion hend
          · rw [depthAt, if_neg (lt_irrefl _), if_pos rfl]
          · intro de hde
            injection hde with hde
            exact Or.inr hde.symm
      · next known hend =>
          split at h
          · exact Except.noConfusion h
          · next hne =>
              injection h with h
              subst h
              have hkd : known = d := by
                by_contra hc
                exact hne hc
              refine ⟨hlen, fun q dq hq => hq, fun de hde => hde, fun q hq => hq,
                fun q hq => Or.inl hq, ?_, fun q dq hq => Or.inl hq,
                fun de hde => Or.inl hde⟩
              rw [depthAt, if_neg (lt_irrefl _), if_pos rfl, hend, hkd]
  · next hpc =>
      split at h
      · exact Except.noConfusion h
      · next hgt =>
          have hplt : pc < len := by omega
          split at h
          · next hnone =>
              injection h with h
              subst h
              refine ⟨?_, ?_, fun de hde => hde, ?_, ?_, ?_, ?_, fun de hde => Or.inl hde⟩
              · simpa using hlen
              · intro q dq hq
                by_cases hqp : q = pc
                · subst hqp
                  rw [hnone] at hq
                  exact Option.noConfusion hq
                · dsimp only
                  rw [getD_set_ne _ _ _ _ (fun hh => hqp hh.symm)]
                  exact hq
              · intro q hq
                exact List.mem_cons.2 (Or.inr hq)
              · intro q hq
                rcases List.mem_cons.1 hq with hq | hq
                · subst hq
                  refine Or.inr ⟨rfl, hplt, ?_⟩
                  dsimp only
                  exact getD_set_self _ _ _ (by omega)
                · exact Or.inl hq
              · rw [depthAt, if_pos hplt]
                exact getD_set_self _ _ _ (by omega)
              · intro q dq hq
                by_cases hqp : q = pc
                · subst hqp
                  dsimp only at hq
                  rw [getD_set_self _ _ _ (by omega)] at hq
                  injection hq with hq
                  exact Or.inr ⟨rfl, hq.symm, List.mem_cons.2 (Or.inl rfl)⟩
                · dsimp only at hq
                  rw [getD_set_ne _ _ _ _ (fun hh => hqp hh.symm)] at hq
                  exact Or.inl hq
          · next known hknown =>
              split at h
              · exact Except.noConfusion h
              · next hne =>
                  injection h with h
                  subst h
                  have hkd : known = d := by
                    by_contra hc
                    exact hne hc
                  refine ⟨hlen, fun q dq hq => hq, fun de hde => hde, fun q hq => hq,
                    fun q hq => Or.inl hq, ?_, fun q dq hq => Or.inl hq,
                    fun de hde => Or.inl hde⟩
                  rw [depthAt, if_pos hplt, hknown, hkd]

theorem Checked_mono (natives : List NativeBinding) (P : Program) (k : Nat)
    {D D' : List (Option Nat)} {e e' : Option Nat}
    (hD : ∀ q dq, D.getD q none = some dq → D'.getD q none = some dq)
    (hE : ∀ de, e = some de → e' = some de) (pc d : Nat)
    (h : Checked natives P k D e pc d) : Checked natives P k D' e' pc d := by
  obtain ⟨instr, eff, h1, h2, h3, h4, h5⟩ := h
  refine ⟨instr, eff, h1, h2, h3, ?_, ?_⟩
  · intro t ht
    obtain ⟨hlt, hv⟩ := h4 t ht
    exact ⟨hlt, hD _ _ hv⟩
  · intro hft
    have hthis := h5 hft
    by_cases hlt : pc + 1 < P.code.length
    · rw [depthAt, if_pos hlt] at hthis ⊢
      exact hD _ _ hthis
    · by_cases heq : pc + 1 = P.code.length
      · rw [depthAt, if_neg hlt, if_pos heq] at hthis ⊢
        exact hE _ hthis
      · rw [depthAt, if_neg hlt, if_neg heq] at hthis
        exact Option.noConfusion hthis

theorem verify_assemble (natives : List NativeBinding) (P : Program) (k : Nat)
    (st st' : VerifySt) (pc : Nat) (rest : List Nat) (dpc : Nat)
    (instruction : Instruction) (eff : InstrEffect)
    (hwa : ∀ q, q ∈ st.worklist → ∃ dq, st.depths.getD q none = some dq)
    (hmain : ∀ q dq, st.depths.getD q none = some dq →
      q ∈ st.worklist ∨ Checked natives P k st.depths st.end_depth q dq)
    (hwl : st.worklist = pc :: rest)
    (hdpc : st.depths.getD pc none = some dpc)
    (hinstr : P.code.get? pc = some instruction)
    (heff : instructionEffect natives P k instruction dpc = .ok eff)
    (hpops : eff.pops ≤ dpc)
    (hlen' : st'.depths.length = P.code.length)
    (F : ∀ q dq, st.depths.getD q none = some dq → st'.depths.getD q none = some dq)
    (E : ∀ de, st.end_depth = some de → st'.end_depth = some de)
    (M : ∀ q, q ∈ rest → q ∈ st'.worklist)
    (B : ∀ q, q ∈ st'.worklist → q ∈ rest ∨ ∃ dq, st'.depths.getD q none = some dq)
    (htgt : ∀ t, eff.target = some t → t < P.code.length ∧
      st'.depths.getD t none = some (dpc - eff.pops + eff.pushes))
    (hft : eff.fallthrough = true →
      depthAt st'.depths st'.end_depth (pc + 1) P.code.length
        = some (dpc - eff.pops + eff.pushes))
    (K : ∀ q dq, st'.depths.getD q none = some dq →
      st.depths.getD q none = some dq ∨ q ∈ st'.worklist) :
    WInv natives P k st' ∧
    (∀ q dq, st.depths.getD q none = some dq → st'.depths.getD q none = some dq) ∧
    (∀ de, st.end_depth = some de → st'.end_depth = some de) := by
  refine ⟨⟨hlen', ?_, ?_⟩, F, E⟩
  · intro q hq
    rcases B q hq with hq2 | hq2
    · obtain ⟨dq, hdq⟩ := hwa q (by rw [hwl]; exact List.mem_cons.2 (Or.inr hq2))
      exact ⟨dq, F q dq hdq⟩
    · exact hq2
  · intro q dq hdq
    rcases K q dq hdq with hold | hmem
    · rcases hmain q dq hold with hm | hc
      · rw [hwl] at hm
        rcases List.mem_cons.1 hm with hm | hm
        · subst hm
          have hdd : dq = dpc := by
            rw [hold] at hdpc
            injection hdpc
          subst hdd
          exact Or.inr ⟨instruction, eff, hinstr, heff, hpops, htgt, hft⟩
        · exact Or.inl (M q hm)
      · exact Or.inr (Checked_mono natives P k F E q dq hc)
    · exact Or.inl hmem

theorem verifyStep_inv (natives : List NativeBinding) (P : Program) (k : Nat)
    (st : VerifySt) (pc : Nat) (rest : List Nat) (st' : VerifySt)
    (hw : WInv natives P k st) (hwl : st.worklist = pc :: rest)
    (h : verifyStep natives P k { st with worklist := rest } pc = .ok st') :
    WInv natives P k st' ∧
    (∀ q dq, st.depths.getD q none = some dq → st'.depths.getD q none = some dq) ∧
    (∀ de, st.end_depth = some de → st'.end_depth = some de) := by
  obtain ⟨hlen, hwa, hmain⟩ := hw
  obtain ⟨dpc, hdpc⟩ := hwa pc (by rw [hwl]; exact List.mem_cons.2 (Or.inl rfl))
  unfold verifyStep at h
  split at h
  · exact Except.noConfusion h
  · next instruction hinstr =>
      rw [show ({ st with worklist := rest } : VerifySt).depths = st.depths from rfl,
        hdpc] at h
      dsimp only [Option.getD_some] at h
      split at h
      · exact Except.noConfusion h
      · next eff heff =>
          split at h
          · exact Except.noConfusion h
          · next hpops =>
              have hpops' : eff.pops ≤ dpc := by omega
              split at h
              · next t htgt =>
                  split at h
                  · exact Except.noConfusion h
                  · next hlt =>
                      have hlt' : t < P.code.length := by omega
                      split at h
                      · exact Except.noConfusion h
                      · next st₂ henq1 =>
                          obtain ⟨L1, F1, E1, M1, B1, D1, K1, Z1⟩ :=
                            enqueue_successor_ok P.code.length
                              { st with worklist := rest } t
                              (dpc - eff.pops + eff.pushes) st₂ hlen henq1
                          have hD1 : st₂.depths.getD t none
                              = some (dpc - eff.pops + eff.pushes) := by
                            rw [depthAt, if_pos hlt'] at D1
                            exact D1
                          split at h
                          · next hft =>
                              obtain ⟨L2, F2, E2, M2, B2, D2, K2, Z2⟩ :=
                                enqueue_successor_ok P.code.length st₂ (pc + 1)
                                  (dpc - eff.pops + eff.pushes) st' L1 h
                              refine verify_assemble natives P k st st' pc rest dpc
                                instruction eff hwa hmain hwl hdpc hinstr heff hpops'
                                L2 (fun q dq hq => F2 q dq (F1 q dq hq))
                                (fun de hde => E2 de (E1 de hde))
                                (fun q hq => M2 q (M1 q hq))
                                ?_ ?_ (fun _ => D2) ?_
                              · intro q hq
                                rcases B2 q hq with hq2 | hq2
                                · rcases B1 q hq2 with hq3 | hq3
                                  · exact Or.inl hq3
                                  · exact Or.inr ⟨_, F2 _ _ hq3.2.2⟩
                                · exact Or.inr ⟨_, hq2.2.2⟩
                              · intro t' ht'
                                rw [htgt] at ht'
                                injection ht' with ht'
                                subst ht'
                                exact ⟨hlt', F2 _ _ hD1⟩
                              · intro q dq hdq
                                rcases K2 q dq hdq with hq2 | hq2
                                · rcases K1 q dq hq2 with hq3 | hq3
                                  · exact Or.inl hq3
                                  · exact Or.inr (M2 q hq3.2.2)
                                · exact Or.inr hq2.2.2
                          · next hft =>
                              injection h with h
                              subst h
                              refine verify_assemble natives P k st _ pc rest dpc
                                instruction eff hwa hmain hwl hdpc hinstr heff hpops'
                                L1 F1 E1 M1 ?_ ?_ ?_ ?_
                              · intro q hq
                                rcases B1 q hq with hq2 | hq2
                                · exact Or.inl hq2
                                · exact Or.inr ⟨_, hq2.2.2⟩
                              · intro t' ht'
                                rw [htgt] at ht'
                                injection ht' with ht'
                                subst ht'
                                exact ⟨hlt', hD1⟩
                              · intro hft2
                                rw [hft2] at hft
                                exact absurd rfl hft
                              · intro q dq hdq
                                rcases K1 q dq hdq with hq2 | hq2
                                · exact Or.inl hq2
                                · exact Or.inr hq2.2.2
              · next htgt =>
                  split at h
                  · next hft =>
                      obtain ⟨L1, F1, E1, M1, B1, D1, K1, Z1⟩ :=
                        enqueue_successor_ok P.code.length
                          { st with worklist := rest } (pc + 1)
                          (dpc - eff.pops + eff.pushes) st' hlen h
                      refine verify_assemble natives P k st st' pc rest dpc
                        instruction eff hwa hmain hwl hdpc hinstr heff hpops'
                        L1 F1 E1 M1 ?_ ?_ (fun _ => D1) ?_
                      · intro q hq
                        rcases B1 q hq with hq2 | hq2
                        · exact Or.inl hq2
                        · exact Or.inr ⟨_, hq2.2.2⟩
                      · intro t' ht'
                        rw [htgt] at ht'
                        exact Option.noConfusion ht'
                      · intro q dq hdq
                        rcases K1 q dq hdq with hq2 | hq2
                        · exact Or.inl hq2
                        · exact Or.inr hq2.2.2
                  · next hft =>
                      injection h with h
                      subst h
                      refine verify_assemble natives P k st _ pc rest dpc
                        instruction eff hwa hmain hwl hdpc hinstr heff hpops'
                        hlen (fun q dq hq => hq) (fun de hde => hde)
                        (fun q hq => hq) ?_ ?_ ?_ (fun q dq hdq => Or.inl hdq)
                      · intro q hq
                        exact Or.inl hq
                      · intro t' ht'
                        rw [htgt] at ht'
                        exact Option.noConfusion ht'
                      · intro hft2
                        rw [hft2] at hft
                        exact absurd rfl hft

theorem verifyLoop_inv (natives : List NativeBinding) (P : Program) (k : Nat) :
    ∀ (fuel : Nat) (st st' : VerifySt), WInv natives P k st →
      verifyLoop natives P k fuel st = .ok st' →
      WInv natives P k st' ∧ st'.worklist = [] ∧
      (∀ q dq, st.depths.getD q none = some dq → st'.depths.getD q none = some dq) ∧
      (∀ de, st.end_depth = some de → st'.end_depth = some de) := by
  intro fuel
  induction fuel with
  | zero =>
      intro st st' hw h
      exact Except.noConfusion h
  | succ fuel ih =>
      intro st st' hw h
      unfold verifyLoop at h
      split at h
      · next hwl =>
          injection h with h
          subst h
          exact ⟨hw, hwl, fun q dq hq => hq, fun de hde => hde⟩
      · next pc rest hwl =>
          split at h
          · exact Except.noConfusion h
          · next st₂ hstep =>
              obtain ⟨hw₂, F, E⟩ :=
                verifyStep_inv natives P k st pc rest st₂ hw hwl hstep
              obtain ⟨hw', hwl', F', E'⟩ := ih st₂ st' hw₂ h
              exact ⟨hw', hwl', fun q dq hq => F' q dq (F q dq hq),
                fun de hde => E' de (E de hde)⟩

theorem verifyCompute_sound (natives : List NativeBinding) (P : Program)
    (k : Nat) (D : List (Option Nat)) (e : Option Nat)
    (h : verifyCompute natives P k = .ok (D, e)) :
    D.length = P.code.length ∧ 0 < P.code.length ∧ D.getD 0 none = some 0 ∧
    (∀ pc d, D.getD pc none = some d → Checked natives P k D e pc d) := by
  unfold verifyCompute at h
  split at h
  · exact Except.noConfusion h
  · next hne =>
      have hpos : 0 < P.code.length := by
        cases hc : P.code with
        | nil => rw [hc] at hne; exact absurd rfl hne
        | cons a l => simp
      split at h
      · exact Except.noConfusion h
      · split at h
        · exact Except.noConfusion h
        · next st0 henq0 =>
            obtain ⟨L0, F0, E0, M0, B0, D0, K0, Z0⟩ :=
              enqueue_successor_ok P.code.length
                ⟨List.replicate P.code.length none, none, []⟩ 0 0 st0
                (by simp) henq0
            have hD0 : st0.depths.getD 0 none = some 0 := by
              rw [depthAt, if_pos hpos] at D0
              exact D0
            have hw0 : WInv natives P k st0 := by
              refine ⟨L0, ?_, ?_⟩
              · intro q hq
                rcases B0 q hq with hq2 | hq2
                · exact absurd hq2 (List.not_mem_nil q)
                · exact ⟨_, hq2.2.2⟩
              · intro q dq hdq
                rcases K0 q dq hdq with hq2 | hq2
                · rw [getD_replicate_none] at hq2
                  exact Option.noConfusion hq2
                · exact Or.inl hq2.2.2
            split at h
            · exact Except.noConfusion h
            · next stf hloop =>
                injection h with h
                have hD : stf.depths = D := congrArg Prod.fst h
                have hE : stf.end_depth = e := congrArg Prod.snd h
                obtain ⟨⟨hlenf, _, hmainf⟩, hwlf, Ff, Ef⟩ :=
                  verifyLoop_inv natives P k _ st0 stf hw0 hloop
                rw [hD] at hlenf Ff hmainf
                rw [hE] at Ef hmainf
                refine ⟨hlenf, hpos, Ff 0 0 hD0, ?_⟩
                intro pc d hpd
                rcases hmainf pc d hpd with hm | hc
                · rw [hwlf] at hm
                  exact absurd hm (List.not_mem_nil pc)
                · exact hc

theorem binary_i64_op_ok (opname : String) (compute : Int → Int → Result Int)
    (stack : List Value) (v : Value) (rest' : List Value)
    (h : binary_i64_op opname compute stack = .ok (v, rest')) :
    2 ≤ stack.length ∧ rest'.length + 2 = stack.length := by
  unfold binary_i64_op at h
  cases stack with
  | nil => exact Except.noConfusion h
  | cons a t =>
      cases t with
      | nil => exact Except.noConfusion h
      | cons b t2 =>
          dsimp only [pop_value] at h
          split at h
          · exact Except.noConfusion h
          · split at h
            · exact Except.noConfusion h
            · split at h
              · exact Except.noConfusion h
              · injection h with h
                have h2 : t2 = rest' := congrArg Prod.snd h
                subst h2
                simp

theorem execute_call_native_ok (natives : List NativeBinding)
    (stack : List Value) (idx : Nat) (v : Value) (rest' : List Value)
    (h : execute_call_native natives stack idx = .ok (v, rest')) :
    ∃ binding, natives.get? idx = some binding ∧ binding.fn.isSome ∧
      binding.arity ≤ stack.length ∧ rest' = stack.drop binding.arity := by
  unfold execute_call_native at h
  split at h
  · exact Except.noConfusion h
  · next binding hb =>
      split at h
      · exact Except.noConfusion h
      · next f hf =>
          split at h
          · exact Except.noConfusion h
          · next hlt =>
              split at h
              · exact Except.noConfusion h
              · next v2 hv =>
                  injection h with h
                  have h2 : stack.drop binding.arity = rest' := congrArg Prod.snd h
                  exact ⟨binding, hb, by simp [hf], by omega, h2.symm⟩

theorem fused_i64_result_ok_effect (natives : List NativeBinding) (P : Program)
    (k : Nat) (nexti : Instruction) (l r res : Int) (d : Nat)
    (h : fused_i64_result nexti.opcode l r = .ok (some res)) :
    instructionEffect natives P k nexti d = .ok ⟨2, 1, none, true⟩ := by
  unfold fused_i64_result at h
  unfold instructionEffect
  cases hop : decodeOp nexti.opcode with
  | none =>
      rw [hop] at h
      injection h with h
      exact Option.noConfusion h
  | some op =>
      rw [hop] at h
      cases op <;>
        first
          | rfl
          | (injection h with h2
             exact Option.noConfusion h2)

theorem RunInv_fallthrough (cfg : VMConfig) (k : Nat)
    (D : List (Option Nat)) (e : Option Nat)
    (hsound : ∀ pc d, D.getD pc none = some d →
      Checked cfg.natives cfg.program k D e pc d)
    (s s' : VMState) (instruction : Instruction)
    (hget : cfg.program.code.get? s.pc = some instruction)
    (hframes : s'.frames = s.frames) (hpc' : s'.pc = s.pc + 1)
    (pops pushes : Nat) (tgt : Option Nat)
    (heff : ∀ eff, instructionEffect cfg.natives cfg.program k instruction
      s.stack.length = .ok eff → eff = ⟨pops, pushes, tgt, true⟩)
    (hbal : s'.stack.length + pops = s.stack.length + pushes)
    (hinv1 : s.frames = [] →
      depthAt D e s.pc cfg.program.code.length = some s.stack.length)
    (hinv2 : ∀ b, s.frames.getLast? = some b →
      depthAt D e b.return_pc cfg.program.code.length = some (b.base + 1)) :
    RunInv D e cfg.program.code.length s' := by
  constructor
  · intro hfe
    rw [hframes] at hfe
    have hD := hinv1 hfe
    have hpc_lt : s.pc < cfg.program.code.length := by
      by_contra hge
      rw [List.get?_eq_none.2 (by omega)] at hget
      exact Option.noConfusion hget
    rw [depthAt, if_pos hpc_lt] at hD
    obtain ⟨instr2, eff, hi2, he2, hp2, ht2, hf2⟩ :=
      hsound s.pc s.stack.length hD
    rw [hget] at hi2
    injection hi2 with hi2
    subst hi2
    have heq := heff eff he2
    subst heq
    have hf3 := hf2 rfl
    rw [hpc']
    rw [hf3]
    have hp2' : pops ≤ s.stack.length := hp2
    dsimp only
    congr 1
    omega
  · intro b hb
    rw [hframes] at hb
    exact hinv2 b hb

theorem RunInv_binop (cfg : VMConfig) (k : Nat)
    (D : List (Option Nat)) (e : Option Nat)
    (hsound : ∀ pc d, D.getD pc none = some d →
      Checked cfg.natives cfg.program k D e pc d)
    (s s' : VMState) (instruction : Instruction)
    (hget : cfg.program.code.get? s.pc = some instruction)
    (nm : String) (f : Int → Int → Result Int)
    (heffop : ∀ eff, instructionEffect cfg.natives cfg.program k instruction
      s.stack.length = .ok eff → eff = ⟨2, 1, none, true⟩)
    (hstep : binaryOutcome (bookkeep cfg s instruction)
      (binary_i64_op nm f s.stack) = .next s')
    (hinv1 : s.frames = [] →
      depthAt D e s.pc cfg.program.code.length = some s.stack.length)
    (hinv2 : ∀ b, s.frames.getLast? = some b →
      depthAt D e b.return_pc cfg.program.code.length = some (b.base + 1)) :
    RunInv D e cfg.program.code.length s' := by
  unfold binaryOutcome at hstep
  split at hstep
  · exact StepOutcome.noConfusion hstep
  · next v rest hbin =>
      obtain ⟨hge, hlen⟩ := binary_i64_op_ok nm f s.stack v rest hbin
      injection hstep with hstep
      subst hstep
      refine RunInv_fallthrough cfg k D e hsound s _ instruction hget ?_ ?_
        2 1 none heffop ?_ hinv1 hinv2
      · exact bookkeep_frames cfg s instruction
      · exact congrArg (fun x => x + 1) (bookkeep_pc cfg s instruction)
      · simp only [List.length_cons]
        omega

theorem pop_value_ok (stack : List Value) (v : Value) (rest : List Value)
    (h : pop_value stack = .ok (v, rest)) : stack = v :: rest := by
  cases stack with
  | nil => exact Except.noConfusion h
  | cons a t =>
      unfold pop_value at h
      injection h with h
      have h1 : a = v := congrArg Prod.fst h
      have h2 : t = rest := congrArg Prod.snd h
      rw [h1, h2]

theorem stepVM_preserves_RunInv (cfg : VMConfig) (k : Nat)
    (D : List (Option Nat)) (e : Option Nat)
    (hsound : ∀ pc d, D.getD pc none = some d →
      Checked cfg.natives cfg.program k D e pc d)
    (s s' : VMState)
    (hinv : RunInv D e cfg.program.code.length s)
    (hstep : stepVM cfg s = .next s') :
    RunInv D e cfg.program.code.length s' := by
  obtain ⟨hinv1, hinv2⟩ := hinv
  unfold stepVM at hstep
  split at hstep
  · next hget =>
      split at hstep <;> exact StepOutcome.noConfusion hstep
  · next instruction hget =>
      split at hstep
      · exact StepOutcome.noConfusion hstep
      · next hbudget =>
          have hpc_lt : s.pc < cfg.program.code.length := by
            by_contra hge
            rw [List.get?_eq_none.2 (by omega)] at hget
            exact Option.noConfusion hget
          unfold execInstr at hstep
          rw [bookkeep_pc, bookkeep_stack, bookkeep_frames, bookkeep_inputs] at hstep
          cases hop : decodeOp instruction.opcode with
          | none =>
              rw [hop] at hstep
              exact StepOutcome.noConfusion hstep
          | some op =>
              rw [hop] at hstep
              cases op with
              | push_constant =>
                  dsimp only at hstep
                  split at hstep
                  · exact StepOutcome.noConfusion hstep
                  · next c hc =>
                      split at hstep
                      · next rhs nexti top rest hnext hshape =>
                          split at hstep
                          · exact StepOutcome.noConfusion hstep
                          · next lhs hexp =>
                              split at hstep
                              · exact StepOutcome.noConfusion hstep
                              · next result hfused =>
                                  injection hstep with hstep
                                  subst hstep
                                  refine ⟨?_, ?_⟩
                                  · intro hfe
                                    have hD := hinv1 hfe
                                    rw [depthAt, if_pos hpc_lt] at hD
                                    obtain ⟨instr2, eff, hi2, he2, hp2, ht2, hf2⟩ :=
                                      hsound s.pc s.stack.length hD
                                    rw [hget] at hi2
                                    injection hi2 with hi2
                                    subst hi2
                                    have heq : eff = ⟨0, 1, none, true⟩ := by
                                      unfold instructionEffect at he2
                                      rw [hop] at he2
                                      dsimp only at he2
                                      split at he2
                                      · exact Except.noConfusion he2
                                      · exact (Except.ok.inj he2).symm
                                    subst heq
                                    have hf3 := hf2 rfl
                                    have hpc1_lt : s.pc + 1 < cfg.program.code.length := by
                                      by_contra hge
                                      rw [List.get?_eq_none.2 (by omega)] at hnext
                                      exact Option.noConfusion hnext
                                    rw [depthAt, if_pos hpc1_lt] at hf3
                                    obtain ⟨instr3, eff3, hi3, he3, hp3, ht3, hf4⟩ :=
                                      hsound (s.pc + 1) _ hf3
                                    rw [hnext] at hi3
                                    injection hi3 with hi3
                                    subst hi3
                                    have heq3 : eff3 = ⟨2, 1, none, true⟩ := by
                                      have hfe3 := fused_i64_result_ok_effect cfg.natives
                                        cfg.program k nexti lhs rhs result
                                        (s.stack.length - 0 + 1) hfused
                                      rw [hfe3] at he3
                                      exact (Except.ok.inj he3).symm
                                    subst heq3
                                    have hf5 := hf4 rfl
                                    have hL : s.stack.length = rest.length + 1 := by
                                      have hstk : s.stack = top :: rest := hshape
                                      rw [hstk]
                                      simp
                                    dsimp only
                                    have hgoal : depthAt D e (s.pc + 2)
                                        cfg.program.code.length
                                        = some (s.stack.length - 0 + 1 - 2 + 1) := hf5
                                    rw [hgoal]
                                    congr 1
                                    simp only [List.length_cons]
                                    omega
                                  · intro b hb
                                    exact hinv2 b hb
                              · next hfused =>
                                  injection hstep with hstep
                                  subst hstep
                                  refine RunInv_fallthrough cfg k D e hsound s _
                                    instruction hget rfl rfl 0 1 none ?_ (by simp) hinv1 hinv2
                                  intro eff he
                                  unfold instructionEffect at he
                                  rw [hop] at he
                                  dsimp only at he
                                  split at he
                                  · exact Except.noConfusion he
                                  · exact (Except.ok.inj he).symm
                      · next x1 x2 x3 =>
                          injection hstep with hstep
                          subst hstep
                          refine RunInv_fallthrough cfg k D e hsound s _
                            instruction hget rfl rfl 0 1 none ?_ (by simp) hinv1 hinv2
                          intro eff he
                          unfold instructionEffect at he
                          rw [hop] at he
                          dsimp only at he
                          split at he
                          · exact Except.noConfusion he
                          · exact (Except.ok.inj he).symm
              | push_input =>
                  dsimp only at hstep
                  split at hstep
                  · exact StepOutcome.noConfusion hstep
                  · next v hv =>
                      injection hstep with hstep
                      subst hstep
                      refine RunInv_fallthrough cfg k D e hsound s _
                        instruction hget rfl rfl 0 1 none ?_ (by simp) hinv1 hinv2
                      intro eff he
                      unfold instructionEffect at he
                      rw [hop] at he
                      dsimp only at he
                      split at he
                      · exact Except.noConfusion he
                      · exact (Except.ok.inj he).symm
              | add_i64 =>
                  dsimp only at hstep
                  simp only [execute_add_i64] at hstep
                  refine RunInv_binop cfg k D e hsound s s' instruction hget _ _ ?_
                    hstep hinv1 hinv2
                  intro eff he
                  unfold instructionEffect at he
                  rw [hop] at he
                  dsimp only at he
                  exact (Except.ok.inj he).symm
              | sub_i64 =>
                  dsimp only at hstep
                  simp only [execute_sub_i64] at hstep
                  refine RunInv_binop cfg k D e hsound s s' instruction hget _ _ ?_
                    hstep hinv1 hinv2
                  intro eff he
                  unfold instructionEffect at he
                  rw [hop] at he
                  dsimp only at he
                  exact (Except.ok.inj he).symm
              | mul_i64 =>
                  dsimp only at hstep
                  simp only [execute_mul_i64] at hstep
                  refine RunInv_binop cfg k D e hsound s s' instruction hget _ _ ?_
                    hstep hinv1 hinv2
                  intro eff he
                  unfold instructionEffect at he
                  rw [hop] at he
                  dsimp only at he
                  exact (Except.ok.inj he).symm
              | mod_i64 =>
                  dsimp only at hstep
                  simp only [execute_mod_i64] at hstep
                  refine RunInv_binop cfg k D e hsound s s' instruction hget _ _ ?_
                    hstep hinv1 hinv2
                  intro eff he
                  unfold instructionEffect at he
                  rw [hop] at he
                  dsimp only at he
                  exact (Except.ok.inj he).symm
              | cmp_eq_i64 =>
                  dsimp only at hstep
                  simp only [execute_cmp_eq_i64] at hstep
                  refine RunInv_binop cfg k D e hsound s s' instruction hget _ _ ?_
                    hstep hinv1 hinv2
                  intro eff he
                  unfold instructionEffect at he
                  rw [hop] at he
                  dsimp only at he
                  exact (Except.ok.inj he).symm
              | cmp_lt_i64 =>
                  dsimp only at hstep
                  simp only [execute_cmp_lt_i64] at hstep
                  refine RunInv_binop cfg k D e hsound s s' instruction hget _ _ ?_
                    hstep hinv1 hinv2
                  intro eff he
                  unfold instructionEffect at he
                  rw [hop] at he
                  dsimp only at he
                  exact (Except.ok.inj he).symm
              | and_i64 =>
                  dsimp only at hstep
                  simp only [execute_and_i64] at hstep
                  refine RunInv_binop cfg k D e hsound s s' instruction hget _ _ ?_
                    hstep hinv1 hinv2
                  intro eff he
                  unfold instructionEffect at he
                  rw [hop] at he
                  dsimp only at he
                  exact (Except.ok.inj he).symm
              | or_i64 =>
                  dsimp only at hstep
                  simp only [execute_or_i64] at hstep
                  refine RunInv_binop cfg k D e hsound s s' instruction hget _ _ ?_
                    hstep hinv1 hinv2
                  intro eff he
                  unfold instructionEffect at he
                  rw [hop] at he
                  dsimp only at he
                  exact (Except.ok.inj he).symm
              | xor_i64 =>
                  dsimp only at hstep
                  simp only [execute_xor_i64] at hstep
                  refine RunInv_binop cfg k D e hsound s s' instruction hget _ _ ?_
                    hstep hinv1 hinv2
                  intro eff he
                  unfold instructionEffect at he
                  rw [hop] at he
                  dsimp only at he
                  exact (Except.ok.inj he).symm
              | shl_i64 =>
                  dsimp only at hstep
                  simp only [execute_shl_i64] at hstep
                  refine RunInv_binop cfg k D e hsound s s' instruction hget _ _ ?_
                    hstep hinv1 hinv2
                  intro eff he
                  unfold instructionEffect at he
                  rw [hop] at he
                  dsimp only at he
                  exact (Except.ok.inj he).symm
              | shr_i64 =>
                  dsimp only at hstep
                  simp only [execute_shr_i64] at hstep
                  refine RunInv_binop cfg k D e hsound s s' instruction hget _ _ ?_
                    hstep hinv1 hinv2
                  intro eff he
                  unfold instructionEffect at he
                  rw [hop] at he
                  dsimp only at he
                  exact (Except.ok.inj he).symm
              | jump =>
                  dsimp only at hstep
                  split at hstep
                  · exact StepOutcome.noConfusion hstep
                  · next hlt =>
                      injection hstep with hstep
                      subst hstep
                      refine ⟨?_, ?_⟩
                      · intro hfe
                        have hD := hinv1 hfe
                        rw [depthAt, if_pos hpc_lt] at hD
                        obtain ⟨instr2, eff, hi2, he2, hp2, ht2, hf2⟩ :=
                          hsound s.pc s.stack.length hD
                        rw [hget] at hi2
                        injection hi2 with hi2
                        subst hi2
                        have heq : eff = ⟨0, 0, some instruction.operand, false⟩ := by
                          unfold instructionEffect at he2
                          rw [hop] at he2
                          dsimp only at he2
                          exact (Except.ok.inj he2).symm
                        subst heq
                        obtain ⟨hlt2, hv⟩ := ht2 instruction.operand rfl
                        dsimp only
                        rw [depthAt, if_pos hlt2, hv]
                        simp
                      · intro b hb
                        exact hinv2 b hb
              | jump_if_true =>
                  dsimp only at hstep
                  split at hstep
                  · exact StepOutcome.noConfusion hstep
                  · next hlt =>
                      split at hstep
                      · exact StepOutcome.noConfusion hstep
                      · next condition rest hpop =>
                          split at hstep
                          · exact StepOutcome.noConfusion hstep
                          · next cval hcval =>
                              have hshape := pop_value_ok s.stack condition rest hpop
                              split at hstep
                              · next hcnz =>
                                  injection hstep with hstep
                                  subst hstep
                                  refine ⟨?_, ?_⟩
                                  · intro hfe
                                    have hD := hinv1 hfe
                                    rw [depthAt, if_pos hpc_lt] at hD
                                    obtain ⟨instr2, eff, hi2, he2, hp2, ht2, hf2⟩ :=
                                      hsound s.pc s.stack.length hD
                                    rw [hget] at hi2
                                    injection hi2 with hi2
                                    subst hi2
                                    have heq : eff
                                        = ⟨1, 0, some instruction.operand, true⟩ := by
                                      unfold instructionEffect at he2
                                      rw [hop] at he2
                                      dsimp only at he2
                                      exact (Except.ok.inj he2).symm
                                    subst heq
                                    obtain ⟨hlt2, hv⟩ := ht2 instruction.operand rfl
                                    dsimp only
                                    rw [depthAt, if_pos hlt2, hv]
                                    congr 1
                                    rw [hshape]
                                    simp only [List.length_cons]
                                    omega
                                  · intro b hb
                                    exact hinv2 b hb
                              · next hcz =>
                                  injection hstep with hstep
                                  subst hstep
                                  refine RunInv_fallthrough cfg k D e hsound s _
                                    instruction hget rfl rfl 1 0
                                    (some instruction.operand) ?_ ?_ hinv1 hinv2
                                  · intro eff he
                                    unfold instructionEffect at he
                                    rw [hop] at he
                                    dsimp only at he
                                    exact (Except.ok.inj he).symm
                                  · rw [hshape]
                                    simp
              | dup =>
                  dsimp only at hstep
                  split at hstep
                  · exact StepOutcome.noConfusion hstep
                  · next v t hshape =>
                      injection hstep with hstep
                      subst hstep
                      refine RunInv_fallthrough cfg k D e hsound s _
                        instruction hget rfl rfl 0 1 none ?_ (by simp) hinv1 hinv2
                      intro eff he
                      unfold instructionEffect at he
                      rw [hop] at he
                      dsimp only at he
                      split at he
                      · exact Except.noConfusion he
                      · exact (Except.ok.inj he).symm
              | pop =>
                  dsimp only at hstep
                  split at hstep
                  · exact StepOutcome.noConfusion hstep
                  · next v t hshape =>
                      injection hstep with hstep
                      subst hstep
                      refine RunInv_fallthrough cfg k D e hsound s _
                        instruction hget rfl rfl 1 0 none ?_ ?_ hinv1 hinv2
                      · intro eff he
                        unfold instructionEffect at he
                        rw [hop] at he
                        dsimp only at he
                        exact (Except.ok.inj he).symm
                      · rw [hshape]
                        simp
              | call =>
                  dsimp only at hstep
                  split at hstep
                  · exact StepOutcome.noConfusion hstep
                  · next fn hfn =>
                      split at hstep
                      · exact StepOutcome.noConfusion hstep
                      · next hlc =>
                          split at hstep
                          · exact StepOutcome.noConfusion hstep
                          · next hentry =>
                              split at hstep
                              · exact StepOutcome.noConfusion hstep
                              · next hsz =>
                                  injection hstep with hstep
                                  subst hstep
                                  refine ⟨?_, ?_⟩
                                  · intro hfe
                                    exact List.noConfusion hfe
                                  · intro b hb
                                    cases hsf : s.frames with
                                    | nil =>
                                        have hb2 : b = CallFrame.mk (s.pc + 1)
                                            (s.stack.length - fn.arity) fn.local_count := by
                                          have hb3 := hb
                                          dsimp only at hb3
                                          rw [hsf] at hb3
                                          rw [List.getLast?_singleton] at hb3
                                          exact (Option.some.inj hb3).symm
                                        subst hb2
                                        have hD := hinv1 hsf
                                        rw [depthAt, if_pos hpc_lt] at hD
                                        obtain ⟨instr2, eff, hi2, he2, hp2, ht2, hf2⟩ :=
                                          hsound s.pc s.stack.length hD
                                        rw [hget] at hi2
                                        injection hi2 with hi2
                                        subst hi2
                                        have heq : eff = ⟨fn.arity, 1, none, true⟩ := by
                                          unfold instructionEffect at he2
                                          rw [hop] at he2
                                          dsimp only at he2
                                          rw [hfn] at he2
                                          dsimp only at he2
                                          exact (Except.ok.inj he2).symm
                                        subst heq
                                        have hf3 := hf2 rfl
                                        dsimp only
                                        exact hf3
                                    | cons g fs =>
                                        have hb3 := hb
                                        dsimp only at hb3
                                        rw [hsf, List.getLast?_cons_cons] at hb3
                                        apply hinv2
                                        rw [hsf]
                                        exact hb3
              | ret =>
                  dsimp only at hstep
                  split at hstep
                  · exact StepOutcome.noConfusion hstep
                  · next rv rest hpop =>
                      split at hstep
                      · exact StepOutcome.noConfusion hstep
                      · next frame frames_rest hframes_eq =>
                          split at hstep
                          · exact StepOutcome.noConfusion hstep
                          · next hbase =>
                              injection hstep with hstep
                              subst hstep
                              have hshape := pop_value_ok s.stack rv rest hpop
                              refine ⟨?_, ?_⟩
                              · intro hfe
                                have hfe2 : frames_rest = [] := hfe
                                have hlast : s.frames.getLast? = some frame := by
                                  rw [hframes_eq, hfe2]
                                  rfl
                                have hD := hinv2 frame hlast
                                dsimp only
                                refine hD.trans ?_
                                congr 1
                                simp only [List.length_cons, List.length_drop]
                                omega
                              · intro b hb
                                have hb2 : frames_rest.getLast? = some b := hb
                                apply hinv2
                                rw [hframes_eq]
                                cases hfr : frames_rest with
                                | nil =>
                                    rw [hfr] at hb2
                                    exact Option.noConfusion hb2
                                | cons g fs =>
                                    rw [hfr] at hb2
                                    rw [List.getLast?_cons_cons]
                                    exact hb2
              | load_local =>
                  dsimp only at hstep
                  split at hstep
                  · exact StepOutcome.noConfusion hstep
                  · next frame frest hfr =>
                      split at hstep
                      · exact StepOutcome.noConfusion hstep
                      · next hidx =>
                          split at hstep
                          · exact StepOutcome.noConfusion hstep
                          · next hsi =>
                              injection hstep with hstep
                              subst hstep
                              refine RunInv_fallthrough cfg k D e hsound s _
                                instruction hget rfl rfl 0 1 none ?_ (by simp) hinv1 hinv2
                              intro eff he
                              unfold instructionEffect at he
                              rw [hop] at he
                              dsimp only at he
                              exact (Except.ok.inj he).symm
              | store_local =>
                  dsimp only at hstep
                  split at hstep
                  · exact StepOutcome.noConfusion hstep
                  · next frame frest hfr =>
                      split at hstep
                      · exact StepOutcome.noConfusion hstep
                      · next hidx =>
                          split at hstep
                          · exact StepOutcome.noConfusion hstep
                          · next value rest hpop =>
                              split at hstep
                              · exact StepOutcome.noConfusion hstep
                              · next hsi =>
                                  injection hstep with hstep
                                  subst hstep
                                  have hshape := pop_value_ok s.stack value rest hpop
                                  refine RunInv_fallthrough cfg k D e hsound s _
                                    instruction hget rfl rfl 1 0 none ?_ ?_ hinv1 hinv2
                                  · intro eff he
                                    unfold instructionEffect at he
                                    rw [hop] at he
                                    dsimp only at he
                                    exact (Except.ok.inj he).symm
                                  · rw [hshape]
                                    simp
              | call_native =>
                  dsimp only at hstep
                  unfold binaryOutcome at hstep
                  rw [bookkeep_pc, bookkeep_frames, bookkeep_inputs] at hstep
                  split at hstep
                  · exact StepOutcome.noConfusion hstep
                  · next v rest hexe =>
                      obtain ⟨binding, hbind, hfns, harity, hdrop⟩ :=
                        execute_call_native_ok cfg.natives s.stack
                          instruction.operand v rest hexe
                      injection hstep with hstep
                      subst hstep
                      refine RunInv_fallthrough cfg k D e hsound s _
                        instruction hget rfl rfl binding.arity 1 none ?_ ?_ hinv1 hinv2
                      · intro eff he
                        unfold instructionEffect at he
                        rw [hop] at he
                        dsimp only at he
                        rw [hbind] at he
                        dsimp only at he
                        cases hf2 : binding.fn with
                        | none =>
                            rw [hf2] at hfns
                            simp at hfns
                        | some f =>
                            rw [hf2] at he
                            dsimp only at he
                            exact (Except.ok.inj he).symm
                      · rw [hdrop]
                        simp only [List.length_cons, List.length_drop]
                        omega
              | halt =>
                  dsimp only at hstep
                  split at hstep <;> exact StepOutcome.noConfusion hstep

theorem advance_preserves_RunInv (cfg : VMConfig) (k : Nat)
    (D : List (Option Nat)) (e : Option Nat)
    (hsound : ∀ pc d, D.getD pc none = some d →
      Checked cfg.natives cfg.program k D e pc d) :
    ∀ (n : Nat) (s s' : VMState), RunInv D e cfg.program.code.length s →
      advance cfg n s = .next s' → RunInv D e cfg.program.code.length s' := by
  intro n
  induction n with
  | zero =>
      intro s s' hi h
      injection h with h
      exact h ▸ hi
  | succ n ih =>
      intro s s' hi h
      unfold advance at h
      split at h
      · next s2 hs2 =>
          exact ih s2 s' (stepVM_preserves_RunInv cfg k D e hsound s s2 hi hs2) h
      · next o hne =>
          exact absurd h (hne s')

/-- C1 (amended).  For every program accepted by the verifier, at every PC
reached during execution while no call frame is active (including the
initial state and every state after the bottom call frame returns), the
runtime stack depth equals the depth the verifier recorded for that PC.
The restriction to frame-free states is forced by the counterexample: a PC
inside a function body that is also reachable from the top level carries
the top-level depth, while a `call` enters it with `base + local_count`
values on the stack. -/
theorem verified_stack_depth_at_reached_pcs (P : Program)
    (natives : List NativeBinding) (k budget fuel : Nat)
    (profiling tracing : Bool) (inputs : List Value)
    (D : List (Option Nat)) (e : Option Nat) (s : VMState)
    (hverify : verifyCompute natives P k = .ok (D, e))
    (hrun : advance ⟨P, natives, budget, profiling, tracing⟩ fuel
      (initState inputs) = .next s)
    (hframes : s.frames = []) :
    depthAt D e s.pc P.code.length = some s.stack.length := by
  obtain ⟨hlen, hpos, hD0, hsound⟩ := verifyCompute_sound natives P k D e hverify
  have hinit : RunInv D e P.code.length (initState inputs) := by
    constructor
    · intro _
      rw [depthAt]
      simp only [initState]
      rw [if_pos hpos]
      simpa using hD0
    · intro b hb
      exact Option.noConfusion hb
  have hfin := advance_preserves_RunInv ⟨P, natives, budget, profiling, tracing⟩
    k D e hsound fuel (initState inputs) s hinit hrun
  exact hfin.1 hframes

theorem verified_stack_depth_at_reached_pcs_witness :
    depthAt [some 0, some 1, some 2, some 1] none 3 4 = some 1 := by
  have h := verified_stack_depth_at_reached_pcs
    ⟨[⟨0, 0⟩, ⟨0, 1⟩, ⟨2, 0⟩, ⟨22, 0⟩], [Value.i64 40, Value.i64 2], []⟩
    [] 0 0 2 false false []
    [some 0, some 1, some 2, some 1] none
    ⟨3, [Value.i64 42], [], [], 2, ProfileStats.init, []⟩
    rfl rfl rfl
  exact h

/-- C1 (counterexample).  The program `[push_constant 0, call 0, ret]` with
one i64 constant and the function `{entry := 2, arity := 1, local_count :=
3}` is accepted by the verifier, which records depth 1 for PC 2; but
execution reaches PC 2 (inside the call, after the stack is resized to
`base + local_count`) with stack depth 3 — so the claim fails at PCs
reached while a call frame is active. -/
theorem call_frame_breaks_recorded_depth :
    ((verifyCompute [] ⟨[⟨0, 0⟩, ⟨17, 0⟩, ⟨18, 0⟩], [Value.i64 7], [⟨2, 1, 3⟩]⟩
        0).toOption.map (fun r => r.1.getD 2 none)) = some (some 1) ∧
    (match advance ⟨⟨[⟨0, 0⟩, ⟨17, 0⟩, ⟨18, 0⟩], [Value.i64 7], [⟨2, 1, 3⟩]⟩,
        [], 0, false, false⟩ 2 (initState []) with
      | .next s => some (s.pc, s.stack.length)
      | _ => none) = some (2, 3) ∧
    (3 : Nat) ≠ 1 := by
  refine ⟨rfl, rfl, by decide⟩

/-- C4 (counterexample).  A `jump` whose target is exactly `code_size`
(program `[jump 1]` with one instruction) is not accepted as an edge to the
implicit program end: the verifier's explicit-target range check fires
first and `verify` fails with `invalid_jump_target`. -/
theorem jump_to_code_size_rejected :
    verify [] ⟨[⟨13, 1⟩], [], []⟩ 0
      = .error ⟨.invalid_jump_target,
          "Jump target out of range during verification."⟩ := by
  rfl

/-- C4 (amended).  Explicit `jump`/`jump_if_true` successors must be
strictly below `code_size` — a target equal to `code_size` fails with
`invalid_jump_target`, so in any accepted program every recorded jump
target is in range (first conjunct).  Only a fallthrough successor can
equal `code_size`; `enqueue_successor` then treats it as the implicit
program end: a first reaching edge records its depth, a later edge is
accepted exactly when it agrees and fails `verification_failed` otherwise,
and a successor strictly past `code_size` fails `invalid_jump_target`
(remaining conjuncts). -/
theorem jump_successors_and_implicit_end :
    (∀ (natives : List NativeBinding) (P : Program) (k : Nat)
        (D : List (Option Nat)) (e : Option Nat),
      verifyCompute natives P k = .ok (D, e) →
      ∀ (pc d : Nat) (i : Instruction), D.getD pc none = some d →
        P.code.get? pc = some i →
        (decodeOp i.opcode = some OpCode.jump ∨
          decodeOp i.opcode = some OpCode.jump_if_true) →
        i.operand < P.code.length) ∧
    (∀ (len : Nat) (st : VerifySt) (d : Nat), st.end_depth = none →
      enqueue_successor len st len d = .ok { st with end_depth := some d }) ∧
    (∀ (len : Nat) (st : VerifySt) (d known : Nat), st.end_depth = some known →
      known = d → enqueue_successor len st len d = .ok st) ∧
    (∀ (len : Nat) (st : VerifySt) (d known : Nat), st.end_depth = some known →
      known ≠ d → enqueue_successor len st len d
        = .error ⟨.verification_failed,
            "Inconsistent stack depth at implicit program end."⟩) ∧
    (∀ (len : Nat) (st : VerifySt) (pc d : Nat), len < pc →
      enqueue_successor len st pc d
        = .error ⟨.invalid_jump_target,
            "Jump target points past end of bytecode."⟩) := by
  refine ⟨?_, ?_, ?_, ?_, ?_⟩
  · intro natives P k D e hok pc d i hpd hi hjump
    obtain ⟨_, _, _, hsound⟩ := verifyCompute_sound natives P k D e hok
    obtain ⟨instr2, eff, hi2, he2, hp2, ht2, hf2⟩ := hsound pc d hpd
    rw [hi] at hi2
    injection hi2 with hi2
    subst hi2
    rcases hjump with hj | hj
    · have heq : eff = ⟨0, 0, some i.operand, false⟩ := by
        unfold instructionEffect at he2
        rw [hj] at he2
        dsimp only at he2
        exact (Except.ok.inj he2).symm
      subst heq
      exact (ht2 i.operand rfl).1
    · have heq : eff = ⟨1, 0, some i.operand, true⟩ := by
        unfold instructionEffect at he2
        rw [hj] at he2
        dsimp only at he2
        exact (Except.ok.inj he2).symm
      subst heq
      exact (ht2 i.operand rfl).1
  · intro len st d hnone
    unfold enqueue_successor
    rw [if_pos rfl, hnone]
  · intro len st d known hsome hkd
    unfold enqueue_successor
    rw [if_pos rfl, hsome]
    dsimp only
    rw [if_neg (by simp [hkd])]
  · intro len st d known hsome hne
    unfold enqueue_successor
    rw [if_pos rfl, hsome]
    dsimp only
    rw [if_pos hne]
    rfl
  · intro len st pc d hlt
    unfold enqueue_successor
    rw [if_neg (by omega), if_pos hlt]
    rfl

theorem jump_successors_and_implicit_end_witness :
    (0 : Nat) < 1 ∧
    enqueue_successor 1 ⟨[some 0], none, []⟩ 1 0
      = .ok ⟨[some 0], some 0, []⟩ ∧
    enqueue_successor 1 ⟨[some 0], none, []⟩ 2 0
      = .error ⟨.invalid_jump_target,
          "Jump target points past end of bytecode."⟩ := by
  refine ⟨?_, ?_, ?_⟩
  · exact jump_successors_and_implicit_end.1 [] ⟨[⟨13, 0⟩], [], []⟩ 0
      [some 0] none rfl 0 0 ⟨13, 0⟩ rfl rfl (Or.inl rfl)
  · exact jump_successors_and_implicit_end.2.1 1 ⟨[some 0], none, []⟩ 0 rfl
  · exact jump_successors_and_implicit_end.2.2.2.2 1 ⟨[some 0], none, []⟩ 2 0
      (by omega)

/-! ## Codec round-trip lemmas -/

lemma readLE_leBytes (k : Nat) (n : Nat) (rest : List Nat) :
    readLE k (leBytes k n ++ rest) = some (n % 256 ^ k, rest) := by
  induction k generalizing n with
  | zero => simp [readLE, leBytes, Nat.mod_one]
  | succ k ih =>
      simp only [leBytes, List.cons_append, readLE, List.append_eq, ih]
      rw [pow_succ', Nat.mod_mul]

lemma readLE_leBytes_of_lt {k n : Nat} (h : n < 256 ^ k) (rest : List Nat) :
    readLE k (leBytes k n ++ rest) = some (n, rest) := by
  rw [readLE_leBytes, Nat.mod_eq_of_lt h]

lemma readBytesN_append (s rest : List Nat) :
    readBytesN s.length (s ++ rest) = some (s, rest) := by
  simp [readBytesN]

lemma i64ToU64_lt (v : Int) : i64ToU64 v < 2 ^ 64 := by
  unfold i64ToU64; omega

lemma u64ToI64_i64ToU64 {v : Int} (h1 : -(2 ^ 63) ≤ v) (h2 : v < 2 ^ 63) :
    u64ToI64 (i64ToU64 v) = v := by
  unfold u64ToI64 i64ToU64
  split <;> omega

lemma pow256_4 : (256 : Nat) ^ 4 = 2 ^ 32 := by norm_num

lemma pow256_8 : (256 : Nat) ^ 8 = 2 ^ 64 := by norm_num

lemma readInstructions_serializeInstructions (code : List Instruction)
    (h : ∀ i ∈ code, i.opcode < 256 ∧ i.operand < 2 ^ 32) (rest : List Nat) :
    readInstructions code.length (serializeInstructions code ++ rest) =
      .ok (code, rest) := by
  induction code with
  | nil => simp [serializeInstructions, readInstructions]
  | cons i tl ih =>
      obtain ⟨hop, harg⟩ := h i (by simp)
      simp only [serializeInstructions, serializeInstruction, List.append_assoc,
        List.length_cons, readInstructions]
      simp only [readLE_leBytes_of_lt (show i.opcode < 256 ^ 1 by simpa using hop),
        readLE_leBytes_of_lt (show i.operand < 256 ^ 4 by rw [pow256_4]; exact harg),
        ih (fun j hj => h j (by simp [hj]))]

lemma readFunctions_serializeFunctions (fns : List ProgFunction)
    (h : ∀ f ∈ fns, f.entry < 2 ^ 32 ∧ f.arity < 2 ^ 32 ∧ f.local_count < 2 ^ 32)
    (rest : List Nat) :
    readFunctions fns.length (serializeFunctions fns ++ rest) =
      .ok (fns, rest) := by
  induction fns with
  | nil => simp [serializeFunctions, readFunctions]
  | cons f tl ih =>
      obtain ⟨he, ha, hl⟩ := h f (by simp)
      simp only [serializeFunctions, serializeFunction, List.append_assoc,
        List.length_cons, readFunctions]
      simp only [readLE_leBytes_of_lt (show f.entry < 256 ^ 4 by rw [pow256_4]; exact he),
        readLE_leBytes_of_lt (show f.arity < 256 ^ 4 by rw [pow256_4]; exact ha),
        readLE_leBytes_of_lt (show f.local_count < 256 ^ 4 by rw [pow256_4]; exact hl),
        ih (fun g hg => h g (by simp [hg]))]

lemma readConstant_serializeConstant (c : Value) (h : WellFormedConstant c)
    (rest : List Nat) :
    ∃ bs, serializeConstant c = .ok bs ∧
      readConstant (bs ++ rest) = .ok (normalizeConstant c, rest) := by
  cases c with
  | empty => exact ⟨[0], rfl, rfl⟩
  | i64 v =>
      obtain ⟨h1, h2⟩ := h
      refine ⟨1 :: leBytes 8 (i64ToU64 v), rfl, ?_⟩
      simp only [List.cons_append, readConstant,
        readLE_leBytes_of_lt (show i64ToU64 v < 256 ^ 8 by
          rw [pow256_8]; exact i64ToU64_lt v)]
      rw [u64ToI64_i64ToU64 h1 h2]
      rfl
  | f64 bits =>
      refine ⟨2 :: leBytes 8 bits, rfl, ?_⟩
      simp only [List.cons_append, readConstant,
        readLE_leBytes_of_lt (show bits < 256 ^ 8 by rw [pow256_8]; exact h)]
      rfl
  | borrowed_string s =>
      obtain ⟨h1, _⟩ := h
      refine ⟨3 :: (leBytes 4 s.length ++ s), ?_, ?_⟩
      · simp only [serializeConstant]
        rw [if_neg (by omega)]
      · simp only [List.cons_append, List.append_assoc, readConstant,
          readLE_leBytes_of_lt (show s.length < 256 ^ 4 by rw [pow256_4]; exact h1),
          readBytesN_append]
        rfl
  | owned_string s =>
      obtain ⟨h1, _⟩ := h
      refine ⟨3 :: (leBytes 4 s.length ++ s), ?_, ?_⟩
      · simp only [serializeConstant]
        rw [if_neg (by omega)]
      · simp only [List.cons_append, List.append_assoc, readConstant,
          readLE_leBytes_of_lt (show s.length < 256 ^ 4 by rw [pow256_4]; exact h1),
          readBytesN_append]
        rfl
  | buffer b =>
      obtain ⟨h1, _⟩ := h
      refine ⟨4 :: (leBytes 4 b.size ++ b.data), ?_, ?_⟩
      · simp only [serializeConstant]
        rw [if_neg (by unfold MoveBuffer.size; omega)]
      · simp only [List.cons_append, List.append_assoc, readConstant,
          MoveBuffer.size,
          readLE_leBytes_of_lt (show b.data.length < 256 ^ 4 by
            rw [pow256_4]; exact h1),
          readBytesN_append]
        rfl

lemma readConstants_serializeConstants (cs : List Value)
    (h : ∀ c ∈ cs, WellFormedConstant c) :
    ∀ rest : List Nat, ∃ bss, serializeConstants cs = .ok bss ∧
      readConstants cs.length (bss ++ rest) =
        .ok (cs.map normalizeConstant, rest) := by
  induction cs with
  | nil => exact fun rest => ⟨[], rfl, rfl⟩
  | cons c tl ih =>
      intro rest
      obtain ⟨bss, hbss, hreads⟩ := ih (fun x hx => h x (by simp [hx])) rest
      obtain ⟨bs, hbs, hread⟩ :=
        readConstant_serializeConstant c (h c (by simp)) (bss ++ rest)
      refine ⟨bs ++ bss, ?_, ?_⟩
      · simp only [serializeConstants, hbs, hbss]
      · simp only [List.length_cons, List.append_assoc, readConstants, hread,
          hreads, List.map_cons]

lemma deserialize_serialize_norm (P : Program) (hwf : WellFormedProgram P) :
    ∃ buf, serialize_program P = .ok buf ∧
      deserialize_program buf.data =
        .ok ⟨P.code, P.constants.map normalizeConstant, P.functions⟩ := by
  obtain ⟨h1, h2, h3, hins, hcs, hfs⟩ := hwf
  obtain ⟨cbs, hcbs, hcread⟩ :=
    readConstants_serializeConstants P.constants hcs (serializeFunctions P.functions)
  refine ⟨⟨leBytes 4 bytecode_magic ++ leBytes 2 bytecode_version ++
      leBytes 2 0 ++ leBytes 4 P.code.length ++
      leBytes 4 P.constants.length ++ leBytes 4 P.functions.length ++
      serializeInstructions P.code ++ cbs ++
      serializeFunctions P.functions⟩, ?_, ?_⟩
  · simp only [serialize_program]
    rw [if_neg (by push_neg; refine ⟨by omega, by omega, by omega⟩), hcbs]
  · have hfread := readFunctions_serializeFunctions P.functions hfs []
    rw [List.append_nil] at hfread
    simp only [deserialize_program, List.append_assoc,
      readLE_leBytes_of_lt (show bytecode_magic < 256 ^ 4 by
        unfold bytecode_magic; norm_num),
      readLE_leBytes_of_lt (show bytecode_version < 256 ^ 2 by
        unfold bytecode_version; norm_num),
      readLE_leBytes_of_lt (show (0 : Nat) < 256 ^ 2 by norm_num),
      readLE_leBytes_of_lt (show P.code.length < 256 ^ 4 by
        rw [pow256_4]; exact h1),
      readLE_leBytes_of_lt (show P.constants.length < 256 ^ 4 by
        rw [pow256_4]; exact h2),
      readLE_leBytes_of_lt (show P.functions.length < 256 ^ 4 by
        rw [pow256_4]; exact h3)]
    rw [if_neg (by simp), if_neg (by simp)]
    simp only [readInstructions_serializeInstructions P.code hins, hcread, hfread]
    rfl

/-- C2 (counterexample to the literal claim): the well-formed program whose
only constant is the borrowed string "x" serializes successfully, but
deserializing the bytes yields the owned string "x" — the round-trip result
is not component-wise equal to the original program, because
`serialize_program` emits both string variants under the same tag and
`deserialize_program` always materializes an owned string. -/
theorem serialize_borrowed_string_decodes_owned :
    WellFormedProgram ⟨[], [.borrowed_string [120]], []⟩ ∧
    Except.bind (serialize_program ⟨[], [.borrowed_string [120]], []⟩)
      (fun buf => deserialize_program buf.data) =
      .ok ⟨[], [.owned_string [120]], []⟩ ∧
    (⟨[], [.owned_string [120]], []⟩ : Program) ≠
      ⟨[], [.borrowed_string [120]], []⟩ := by
  refine ⟨by norm_num [WellFormedProgram, WellFormedConstant], ?_, by decide⟩
  rfl

/-- C2 (amended): for every well-formed program whose string constants are
all owned (no `borrowed_string` constant), `serialize_program` succeeds,
`deserialize_program` on the produced bytes succeeds, the decoded program
equals the original component-wise in code, constants and functions, and
running the decoded program yields the same result as running the original
under every configuration.  (With borrowed-string constants the round trip
still succeeds but returns the owned-string image of each constant; see the
counterexample.) -/
theorem codec_roundtrip_runs_identically (P : Program)
    (hwf : WellFormedProgram P)
    (howned : ∀ c ∈ P.constants, c.is_string_view = false) :
    ∃ buf Q, serialize_program P = .ok buf ∧
      deserialize_program buf.data = .ok Q ∧ Q = P ∧
      ∀ natives budget profiling tracing inputs fuel,
        run ⟨Q, natives, budget, profiling, tracing⟩ inputs fuel =
          run ⟨P, natives, budget, profiling, tracing⟩ inputs fuel := by
  obtain ⟨buf, hs, hd⟩ := deserialize_serialize_norm P hwf
  have hmap : P.constants.map normalizeConstant = P.constants := by
    have he : ∀ c ∈ P.constants, normalizeConstant c = c := by
      intro c hc
      cases c with
      | borrowed_string s =>
          have := howned _ hc
          simp [Value.is_string_view] at this
      | empty => rfl
      | i64 v => rfl
      | f64 bits => rfl
      | owned_string s => rfl
      | buffer b => rfl
    simpa using List.map_congr_left he
  have hQ : (⟨P.code, P.constants.map normalizeConstant, P.functions⟩ :
      Program) = P := by rw [hmap]
  rw [hQ] at hd
  exact ⟨buf, P, hs, hd, rfl, fun _ _ _ _ _ _ => rfl⟩

theorem codec_roundtrip_runs_identically_witness :
    ∃ buf Q,
      serialize_program ⟨[⟨0, 0⟩],
        [.empty, .i64 (-5), .f64 1, .owned_string [104, 105],
          .buffer ⟨[1, 2, 3]⟩], [⟨0, 1, 2⟩]⟩ = .ok buf ∧
      deserialize_program buf.data = .ok Q ∧
      Q = ⟨[⟨0, 0⟩],
        [.empty, .i64 (-5), .f64 1, .owned_string [104, 105],
          .buffer ⟨[1, 2, 3]⟩], [⟨0, 1, 2⟩]⟩ ∧
      ∀ natives budget profiling tracing inputs fuel,
        run ⟨Q, natives, budget, profiling, tracing⟩ inputs fuel =
          run ⟨⟨[⟨0, 0⟩],
            [.empty, .i64 (-5), .f64 1, .owned_string [104, 105],
              .buffer ⟨[1, 2, 3]⟩], [⟨0, 1, 2⟩]⟩,
            natives, budget, profiling, tracing⟩ inputs fuel :=
  codec_roundtrip_runs_identically _
    (by norm_num [WellFormedProgram, WellFormedConstant]) (by decide)

end StellaVM
